import Mathlib

/-!
# ddlp-scheduler: resource accounting and placement (`fit`, `bestPrice`)

A shallow embedding of `src/kubernetes.go` (`fit`, lines 217-432) and
`src/bestprice.go` (`bestPrice`) together with the library functions they call
(`strings.HasSuffix`, `strings.TrimSuffix`, `strconv.Atoi`,
`strconv.ParseFloat(_, 32)`, the conversions `int(f * 1000)` and `float64(i)`).

Conventions of the embedding

* Go `int` is the 64-bit two's-complement integer: values are `Int`, every
  arithmetic result is reduced by `wrap64`.
* Go strings are Lean `String`s; the strings come out of a JSON decoder, so
  they are valid UTF-8 and a test for an ASCII suffix agrees on code points
  and on bytes.
* `map[string]string` lookups of the keys `"cpu"` and `"memory"` are the
  fields `cpu` and `memory`; a missing key is the empty string, as in Go.
* The HTTP calls are the fields of `Cluster`: what `getNodes` and `getPods`
  answer and which `bind` calls fail. Effects are returned as a trace.
* A run ends in `Except.ok`, in `Fault.error` (the Go function returned a
  non-nil `error`) or in `Fault.panic` (nil dereference, index out of range).
* `strconv` is that of Go 1.13 and later: `ParseFloat` accepts decimal and
  hexadecimal floating-point literals with underscores between digits, `inf`,
  `infinity` and `nan`, and rounds to the nearest `float32`, ties to even.
* The one thing left to the machine is the value of `int(f)` when `f` is out
  of range; it is the parameter `Platform` of every function that converts.
-/

namespace DDLP

/-! ## Go `int` -/

/-- Reduction of an integer to the 64-bit two's-complement range. -/
def wrap64 (x : Int) : Int := (x + 2 ^ 63) % 2 ^ 64 - 2 ^ 63

def minInt64 : Int := -(2 ^ 63)
def maxInt64 : Int := 2 ^ 63 - 1

/-- Go `a + b` on `int`. -/
def addInt (a b : Int) : Int := wrap64 (a + b)
/-- Go `a - b` on `int`. -/
def subInt (a b : Int) : Int := wrap64 (a - b)
/-- Go `a * b` on `int`. -/
def mulInt (a b : Int) : Int := wrap64 (a * b)
/-- Go `a / b` on `int` for a non-zero constant `b`: truncation toward zero. -/
def quoInt (a b : Int) : Int := wrap64 (Int.tdiv a b)

/-! ## `strings` -/

/-- Go `strings.HasSuffix(s, suffix)`. -/
def hasSuffix (s suffix : String) : Bool := suffix.data.isSuffixOf s.data

/-- Go `strings.TrimSuffix(s, suffix)`. -/
def trimSuffix (s suffix : String) : String :=
  if hasSuffix s suffix then ⟨s.data.take (s.data.length - suffix.data.length)⟩ else s

/-- Go `strings.Join(elems, sep)`. -/
def joinStrings (sep : String) : List String → String
  | [] => ""
  | [a] => a
  | a :: b :: rest => a ++ sep ++ joinStrings sep (b :: rest)

/-! ## `strconv` -/

/-- The two errors of `strconv`: `ErrSyntax` and `ErrRange`. -/
inductive NumErr
  | invalid
  | outOfRange
  deriving DecidableEq, Repr

/-- Go `*strconv.NumError`: function name, the input string, the error. -/
structure NumError where
  Func : String
  Num : String
  Err : NumErr
  deriving DecidableEq, Repr

def isDigit (c : Char) : Bool := decide ('0'.toNat ≤ c.toNat) && decide (c.toNat ≤ '9'.toNat)

def digitVal (c : Char) : Nat := c.toNat - '0'.toNat

/-- The digit loop of Go `strconv.ParseUint(s, 10, 64)`, left to right with
the value `n` read so far: a character that is not a digit ends it with a
syntax error and the value 0; a digit at which the value leaves `uint64` ends
it with a range error and the value `2^64 - 1`, before any later character is
looked at. -/
def parseUintLoop : List Char → Nat → Nat × Option NumErr
  | [], n => (n, none)
  | c :: cs, n =>
    if isDigit c then
      if n ≥ (2 ^ 64 - 1) / 10 + 1 then (2 ^ 64 - 1, some .outOfRange)
      else
        let n1 := n * 10 + digitVal c
        if n1 > 2 ^ 64 - 1 then (2 ^ 64 - 1, some .outOfRange) else parseUintLoop cs n1
    else (0, some .invalid)

/-- Go `strconv.Atoi(s)`: the value and the error. An optional sign, then one
or more decimal digits read by `ParseUint`; a syntax error yields 0, a range
error the nearest bound. -/
def Atoi (s : String) : Int × Option NumError :=
  let bad : Int × Option NumError := (0, some ⟨"Atoi", s, .invalid⟩)
  match s.data with
  | [] => bad
  | c :: cs =>
    let neg := c == '-'
    let ds := if c == '+' || c == '-' then cs else c :: cs
    match ds with
    | [] => bad
    | _ :: _ =>
      match parseUintLoop ds 0 with
      | (_, some .invalid) => bad
      | (un, _) =>
        if neg then
          if un > 2 ^ 63 then (minInt64, some ⟨"Atoi", s, .outOfRange⟩) else (-(un : Int), none)
        else
          if un ≥ 2 ^ 63 then (maxInt64, some ⟨"Atoi", s, .outOfRange⟩) else ((un : Int), none)

/-- A `float64` value as far as this program produces them: the finite value
`(-1)^neg * m * 2^e`, an infinity, or NaN. -/
inductive GoFloat
  | finite (neg : Bool) (m : Nat) (e : Int)
  | inf (neg : Bool)
  | nan
  deriving DecidableEq, Repr

def bitLenAux : Nat → Nat → Nat
  | 0, _ => 0
  | fuel + 1, n => if n = 0 then 0 else bitLenAux fuel (n / 2) + 1

/-- Number of binary digits of `n`. -/
def bitLen (n : Nat) : Nat := bitLenAux n n

/-- Numerator and denominator of `n / (d * 2^e)`. -/
def scaled (n d : Nat) (e : Int) : Nat × Nat :=
  if 0 ≤ e then (n, d * 2 ^ e.toNat) else (n * 2 ^ (-e).toNat, d)

/-- Nearest integer to `N / D`, ties to even. -/
def roundHalfEven (N D : Nat) : Nat :=
  let q := N / D
  let r := N % D
  if 2 * r > D || (2 * r == D && q % 2 == 1) then q + 1 else q

/-- IEEE 754 round-to-nearest-even of the positive rational `n / d` to a
binary format with `p` mantissa bits and least exponent `emin`: the result is
`m * 2^e` for the returned `(m, e)`. -/
def roundFloat (p : Nat) (emin : Int) (n d : Nat) : Nat × Int :=
  if n = 0 then (0, 0) else
    let k : Int := (bitLen n : Int) - (bitLen d : Int)
    let e0 := max (k - (p : Int)) emin
    let s0 := scaled n d e0
    let e := if s0.1 / s0.2 ≥ 2 ^ p then e0 + 1 else e0
    let s1 := scaled n d e
    (roundHalfEven s1.1 s1.2, e)

/-- State of the digit loop of `strconv.readFloat`. -/
structure Scan where
  mantissa : Nat
  nd : Nat
  dp : Int
  sawdot : Bool
  sawdigits : Bool
  underscores : Bool
  deriving DecidableEq, Repr

def isHexLetter (c : Char) : Bool :=
  (decide ('a'.toNat ≤ c.toNat) && decide (c.toNat ≤ 'f'.toNat)) ||
  (decide ('A'.toNat ≤ c.toNat) && decide (c.toNat ≤ 'F'.toNat))

def hexLetterVal (c : Char) : Nat :=
  if 'a'.toNat ≤ c.toNat then c.toNat - 'a'.toNat + 10 else c.toNat - 'A'.toNat + 10

/-- The digit loop of `strconv.readFloat`: digits, at most one point,
underscores; stops at the first other character and returns what is left. -/
def scanDigits (hex : Bool) : List Char → Scan → Scan × List Char
  | [], st => (st, [])
  | c :: cs, st =>
    if c == '_' then scanDigits hex cs { st with underscores := true }
    else if c == '.' then
      if st.sawdot then (st, c :: cs)
      else scanDigits hex cs { st with sawdot := true, dp := st.nd }
    else if isDigit c then
      if c == '0' && st.nd == 0 then
        scanDigits hex cs { st with sawdigits := true, dp := st.dp - 1 }
      else
        scanDigits hex cs { st with sawdigits := true, nd := st.nd + 1,
                                    mantissa := st.mantissa * (if hex then 16 else 10) + digitVal c }
    else if hex && isHexLetter c then
      scanDigits hex cs { st with sawdigits := true, nd := st.nd + 1,
                                  mantissa := st.mantissa * 16 + hexLetterVal c }
    else (st, c :: cs)

/-- The exponent-digit loop of `strconv.readFloat`: the exponent read (capped
once it reaches 10000), whether an underscore was seen, the rest. -/
def scanExp : List Char → Nat → Bool → Nat × Bool × List Char
  | [], e, us => (e, us, [])
  | c :: cs, e, us =>
    if c == '_' then scanExp cs e true
    else if isDigit c then scanExp cs (if e < 10000 then e * 10 + digitVal c else e) us
    else (e, us, c :: cs)

/-- The loop of `strconv.underscoreOK`; `saw` is the last character class
seen: 0 a digit or base prefix, 1 an underscore, 2 anything else, 3 the start. -/
def underscoreLoop (hex : Bool) : List Char → Nat → Bool
  | [], saw => saw != 1
  | c :: cs, saw =>
    if isDigit c || (hex && isHexLetter c) then underscoreLoop hex cs 0
    else if c == '_' then
      if saw != 0 then false else underscoreLoop hex cs 1
    else if saw == 1 then false
    else underscoreLoop hex cs 2

/-- Go `strconv.underscoreOK`: underscores stand only between digits or
between a base prefix and a digit. -/
def underscoreOK (s : List Char) : Bool :=
  let s1 := match s with
    | c :: cs => if c == '-' || c == '+' then cs else s
    | [] => s
  match s1 with
  | '0' :: x :: rest =>
    if x == 'b' || x == 'B' || x == 'o' || x == 'O' || x == 'x' || x == 'X' then
      underscoreLoop (x == 'x' || x == 'X') rest 0
    else underscoreLoop false s1 3
  | _ => underscoreLoop false s1 3

/-- Result of `strconv.readFloat` on a string it accepts up to its end:
sign, mantissa, exponent and whether the number is hexadecimal; the value is
`mantissa * 10^exp`, or `mantissa * 2^exp` when hexadecimal. -/
structure ReadFloat where
  neg : Bool
  mantissa : Nat
  exp : Int
  hex : Bool
  deriving DecidableEq, Repr

/-- Go `strconv.readFloat(s)` followed by the test of `ParseFloat` that the
whole string was consumed; `none` is the syntax error. The mantissa is kept
exactly (Go keeps 19 digits and a truncation flag and rounds correctly). -/
def readFloat (s : List Char) : Option ReadFloat :=
  match s with
  | [] => none
  | c :: cs =>
    let neg := c == '-'
    let s1 := if c == '+' || c == '-' then cs else s
    let hex := match s1 with
      | '0' :: x :: _ :: _ => x == 'x' || x == 'X'
      | _ => false
    let s2 := if hex then s1.drop 2 else s1
    let r := scanDigits hex s2 ⟨0, 0, 0, false, false, false⟩
    let st := r.1
    if !st.sawdigits then none else
      let dp0 : Int := if st.sawdot then st.dp else st.nd
      let dp1 : Int := if hex then dp0 * 4 else dp0
      let ndMant : Int := if hex then (st.nd : Int) * 4 else st.nd
      let finish (dp : Int) (us : Bool) (rest : List Char) : Option ReadFloat :=
        if us && !underscoreOK s then none
        else if rest != [] then none
        else some ⟨neg, st.mantissa, if st.mantissa != 0 then dp - ndMant else 0, hex⟩
      match r.2 with
      | x :: rest =>
        if (hex && (x == 'p' || x == 'P')) || (!hex && (x == 'e' || x == 'E')) then
          match rest with
          | [] => none
          | y :: rest1 =>
            let esign : Int := if y == '-' then -1 else 1
            let rest2 := if y == '+' || y == '-' then rest1 else rest
            match rest2 with
            | [] => none
            | z :: _ =>
              if !isDigit z then none else
                let x := scanExp rest2 0 st.underscores
                finish (dp1 + (x.1 : Int) * esign) x.2.1 x.2.2
        else if hex then none
        else finish dp1 st.underscores (x :: rest)
      | [] => if hex then none else finish dp1 st.underscores []

/-- ASCII lower-casing of `strconv.commonPrefixLenIgnoreCase`. -/
def lowerASCII (c : Char) : Char :=
  if 'A'.toNat ≤ c.toNat ∧ c.toNat ≤ 'Z'.toNat then Char.ofNat (c.toNat + 32) else c

/-- Go `strconv.special(s)` on a string it accepts up to its end: an optionally
signed `inf` or `infinity`, or an unsigned `nan`, in any letter case. -/
def special (s : List Char) : Option GoFloat :=
  match s with
  | [] => none
  | c :: cs =>
    let signed := c == '+' || c == '-'
    let body := (if signed then cs else s).map lowerASCII
    if body == "inf".data || body == "infinity".data then some (.inf (c == '-'))
    else if !signed && body == "nan".data then some .nan
    else none

/-- Go `strconv.ParseFloat(s, 32)`: the value, a `float64` holding the nearest
`float32`, and the error. A syntax error yields 0; a magnitude that rounds
beyond the largest `float32` yields an infinity and a range error. -/
def ParseFloat32 (s : String) : GoFloat × Option NumError :=
  match special s.data with
  | some f => (f, none)
  | none =>
    match readFloat s.data with
    | none => (.finite false 0 0, some ⟨"ParseFloat", s, .invalid⟩)
    | some r =>
      let q : Nat × Nat :=
        if r.hex then
          if 0 ≤ r.exp then (r.mantissa * 2 ^ r.exp.toNat, 1) else (r.mantissa, 2 ^ (-r.exp).toNat)
        else if 0 ≤ r.exp then (r.mantissa * 10 ^ r.exp.toNat, 1)
        else (r.mantissa, 10 ^ (-r.exp).toNat)
      let me := roundFloat 24 (-149) q.1 q.2
      if 0 ≤ me.2 ∧ me.1 * 2 ^ me.2.toNat ≥ 2 ^ 128 then
        (.inf r.neg, some ⟨"ParseFloat", s, .outOfRange⟩)
      else (.finite r.neg me.1 me.2, none)

/-- What differs between machines: the `int` that a conversion `int(f)` yields
when the truncated `f` is not an `int` (the Go specification leaves the value
to the implementation). -/
structure Platform where
  convIndefinite : GoFloat → Int

/-- On amd64 every such conversion yields the least `int`. -/
def amd64 : Platform := ⟨fun _ => minInt64⟩

/-- Go `f * 1000` in `float64`, for `f` as returned by `ParseFloat32`: its
mantissa has at most 25 bits, so the product is exact. -/
def mul1000 : GoFloat → GoFloat
  | .finite neg m e => .finite neg (m * 1000) e
  | f => f

/-- Go `int(f)`: truncation toward zero. -/
def floatToInt (plat : Platform) (f : GoFloat) : Int :=
  match f with
  | .finite neg m e =>
    let t : Nat := if 0 ≤ e then m * 2 ^ e.toNat else m / 2 ^ (-e).toNat
    let x : Int := if neg then -(t : Int) else t
    if minInt64 ≤ x ∧ x ≤ maxInt64 then x else wrap64 (plat.convIndefinite f)
  | _ => wrap64 (plat.convIndefinite f)

/-- Go `float64(i)` for an `int` `i`, as the exact value of the result. -/
def intToFloat64 (i : Int) : Int :=
  let me := roundFloat 53 (-1074) i.natAbs 1
  let v : Nat := if 0 ≤ me.2 then me.1 * 2 ^ me.2.toNat else me.1 / 2 ^ (-me.2).toNat
  if i < 0 then -(v : Int) else v

/-! ## Data model

The type declarations of the repository (`Node`, `Pod`, `Event`, ...) are not
among the two source files; the structures below carry the fields that `fit`,
`bestPrice` and `bind` read and write, under the names the source uses. -/

/-- Modelled from the spec: `Metadata` (type declaration missing), with the
fields `Name` and `Uid` that the source reads. -/
structure Metadata where
  Name : String
  Uid : String
  deriving DecidableEq, Repr

/-- Modelled from the spec: a `map[string]string` of quantity strings (type
declaration missing), read only at the keys `"cpu"` and `"memory"`; a missing
key reads as the empty string. -/
structure ResourceList where
  cpu : String
  memory : String
  deriving DecidableEq, Repr

/-- Modelled from the spec: `c.Resources` (type declaration missing). -/
structure ResourceRequirements where
  Requests : ResourceList
  deriving DecidableEq, Repr

/-- Modelled from the spec: `Container` (type declaration missing). -/
structure Container where
  Resources : ResourceRequirements
  deriving DecidableEq, Repr

/-- Modelled from the spec: `PodSpec` (type declaration missing); an empty
`NodeName` is an unscheduled pod. -/
structure PodSpec where
  NodeName : String
  Containers : List Container
  deriving DecidableEq, Repr

/-- Modelled from the spec: `Pod` (type declaration missing). -/
structure Pod where
  Metadata : Metadata
  Spec : PodSpec
  deriving DecidableEq, Repr

/-- Modelled from the spec: `NodeStatus` (type declaration missing). -/
structure NodeStatus where
  Allocatable : ResourceList
  deriving DecidableEq, Repr

/-- Modelled from the spec: `Node` (type declaration missing). -/
structure Node where
  Metadata : Metadata
  Status : NodeStatus
  deriving DecidableEq, Repr

/-- Modelled from the spec: `ObjectReference` (type declaration missing). -/
structure ObjectReference where
  Kind : String
  Name : String
  Namespace : String
  Uid : String
  deriving DecidableEq, Repr

/-- Modelled from the spec: `Event` (type declaration missing), with the fields
that `fit` fills in; `Metadata.GenerateName` and `Source.Component` are
flattened and the Go field `Type` is `EventType`. -/
structure Event where
  Count : Int
  Message : String
  GenerateName : String
  Reason : String
  LastTimestamp : String
  FirstTimestamp : String
  EventType : String
  Component : String
  InvolvedObject : ObjectReference
  deriving DecidableEq, Repr

/-- The zero value of `Pod`, which `var pod Pod` declares. -/
def Pod.zero : Pod := ⟨⟨"", ""⟩, ⟨"", []⟩⟩

def mkContainer (cpu memory : String) : Container := ⟨⟨⟨cpu, memory⟩⟩⟩

def mkPod (name uid nodeName : String) (cs : List Container) : Pod :=
  ⟨⟨name, uid⟩, ⟨nodeName, cs⟩⟩

def mkNode (name cpu memory : String) : Node := ⟨⟨name, ""⟩, ⟨⟨cpu, memory⟩⟩⟩

/-- `ResourceUsage` (kubernetes.go, lines 217-220). -/
structure ResourceUsage where
  CPU : Int
  MEMORY : Int
  deriving DecidableEq, Repr

/-! ## Outcomes and effects -/

deriving instance DecidableEq for Except

inductive GoError
  | transport (msg : String)
  | num (e : NumError)
  deriving DecidableEq, Repr

/-- How a run ends other than by a normal return without error. -/
inductive Fault
  | error (e : GoError)
  | panic (msg : String)
  deriving DecidableEq, Repr

def nilDeref : Fault := .panic "invalid memory address or nil pointer dereference"

def indexOutOfRange : Fault := .panic "index out of range"

/-- The calls that leave the process. -/
inductive Effect
  | log (msg : String)
  | bind (pod : Pod) (node : Node)
  | postEvent (event : Event)
  deriving DecidableEq, Repr

/-- The control plane as one invocation sees it: the answers of `getNodes()`
and `getPods()`, the error (if any) of the `i`-th call of `bind`, and the
formatted time of the failure event. -/
structure Cluster where
  getNodes : Except String (List Node)
  getPods : Except String (List Pod)
  bindErr : Nat → Option String
  now : String

/-- A library result `(value, err)` under `if err != nil { return nil, err }`. -/
def checked {α : Type} (r : α × Option NumError) : Except Fault α :=
  match r.2 with
  | none => .ok r.1
  | some e => .error (.error (.num e))

/-! ## The ledger: `map[string]*ResourceUsage` -/

def Ledger : Type := String → Option ResourceUsage

def Ledger.empty : Ledger := fun _ => none

def Ledger.insert (m : Ledger) (name : String) (ru : ResourceUsage) : Ledger :=
  fun k => if k = name then some ru else m k

/-- Lines 234-237: a zeroed accumulator for every node. -/
def newLedger : List Node → Ledger → Ledger
  | [], m => m
  | node :: rest, m => newLedger rest (m.insert node.Metadata.Name ⟨0, 0⟩)

/-- The statements `ru := resourceUsage[name]; ru.CPU += v`; a missing entry is
a nil pointer. -/
def Ledger.addCPU (m : Ledger) (name : String) (v : Int) : Except Fault Ledger :=
  match m name with
  | none => .error nilDeref
  | some ru => .ok (m.insert name { ru with CPU := addInt ru.CPU v })

/-- The statements `ru := resourceUsage[name]; ru.MEMORY += v`. -/
def Ledger.addMEMORY (m : Ledger) (name : String) (v : Int) : Except Fault Ledger :=
  match m name with
  | none => .error nilDeref
  | some ru => .ok (m.insert name { ru with MEMORY := addInt ru.MEMORY v })

/-! ## `fit`: the conversions -/

/-- The CPU conversion of `fit`, written out three times in the source (lines
246-263 for a bound pod, 303-317 for the group, 349-362 for a node): a string
ending in `m` is an integer of millicores, any other string a `float32` of
cores, multiplied by 1000 and truncated. -/
def fitCPU (plat : Platform) (raw : String) : Except Fault Int :=
  if hasSuffix raw "m" then checked (Atoi (trimSuffix raw "m"))
  else
    match checked (ParseFloat32 raw) with
    | .error f => .error f
    | .ok cpuFloat => .ok (floatToInt plat (mul1000 cpuFloat))

/-- The memory conversion of a bound pod (lines 265-281): `some v` when `v` is
added to the ledger, `none` when no branch applies and nothing is done. -/
def usageMemory (raw : String) : Except Fault (Option Int) :=
  if hasSuffix raw "Mi" then
    match checked (Atoi (trimSuffix raw "Mi")) with
    | .error f => .error f
    | .ok memory => .ok (some memory)
  else if hasSuffix raw "Gi" then
    match checked (Atoi (trimSuffix raw "Gi")) with
    | .error f => .error f
    | .ok memory => .ok (some (mulInt memory 1000))
  else .ok none

/-- The memory conversion of the group (lines 318-339). -/
def demandMemory (plat : Platform) (raw : String) : Except Fault Int :=
  if hasSuffix raw "Ki" then checked (Atoi (trimSuffix raw "Ki"))
  else if hasSuffix raw "Gi" then
    match checked (ParseFloat32 (trimSuffix raw "Gi")) with
    | .error f => .error f
    | .ok memoryFloat => .ok (floatToInt plat (mul1000 memoryFloat))
  else checked (Atoi (trimSuffix raw "Mi"))

/-- The memory conversion of a node's allocatable memory (lines 363-384). -/
def allocatableMemory (plat : Platform) (raw : String) : Except Fault Int :=
  if hasSuffix raw "Ki" then
    match checked (Atoi (trimSuffix raw "Ki")) with
    | .error f => .error f
    | .ok allocatablememory => .ok (quoInt allocatablememory 1000)
  else if hasSuffix raw "Gi" then
    match checked (ParseFloat32 (trimSuffix raw "Gi")) with
    | .error f => .error f
    | .ok memoryFloat => .ok (floatToInt plat (mul1000 memoryFloat))
  else checked (Atoi (trimSuffix raw "Mi"))

/-! ## `fit`: the ledger (lines 234-286) -/

/-- Lines 243-285 for one container of a pod bound to `nodeName`. -/
def usageContainer (plat : Platform) (nodeName : String) (m : Ledger) (c : Container) :
    Except Fault Ledger :=
  match fitCPU plat c.Resources.Requests.cpu with
  | .error f => .error f
  | .ok cores =>
    match m.addCPU nodeName cores with
    | .error f => .error f
    | .ok m1 =>
      match usageMemory c.Resources.Requests.memory with
      | .error f => .error f
      | .ok none => .ok m1
      | .ok (some memory) => m1.addMEMORY nodeName memory

/-- The loop `for _, c := range p.Spec.Containers` (line 243). -/
def usageContainers (plat : Platform) (nodeName : String) :
    List Container → Ledger → Except Fault Ledger
  | [], m => .ok m
  | c :: cs, m =>
    match usageContainer plat nodeName m c with
    | .error f => .error f
    | .ok m1 => usageContainers plat nodeName cs m1

/-- The loop `for _, p := range podList.Items` (lines 239-286); a pod with an
empty `NodeName` is skipped. -/
def usagePods (plat : Platform) : List Pod → Ledger → Except Fault Ledger
  | [], m => .ok m
  | p :: ps, m =>
    if p.Spec.NodeName = "" then usagePods plat ps m
    else
      match usageContainers plat p.Spec.NodeName p.Spec.Containers m with
      | .error f => .error f
      | .ok m1 => usagePods plat ps m1

/-- The ledger of `fit` (lines 234-286). -/
def fitLedger (plat : Platform) (nodeList : List Node) (podList : List Pod) :
    Except Fault Ledger :=
  usagePods plat podList (newLedger nodeList Ledger.empty)

/-! ## `fit`: the aggregate demand (lines 299-341) -/

/-- Lines 303-339 for one container of the group; `acc` is
`(spaceRequired, memoryRequired)`. -/
def demandContainer (plat : Platform) (acc : Int × Int) (c : Container) :
    Except Fault (Int × Int) :=
  match fitCPU plat c.Resources.Requests.cpu with
  | .error f => .error f
  | .ok cores =>
    match demandMemory plat c.Resources.Requests.memory with
    | .error f => .error f
    | .ok memory => .ok (addInt acc.1 cores, addInt acc.2 memory)

def demandContainers (plat : Platform) : List Container → Int × Int → Except Fault (Int × Int)
  | [], acc => .ok acc
  | c :: cs, acc =>
    match demandContainer plat acc c with
    | .error f => .error f
    | .ok acc1 => demandContainers plat cs acc1

def demandPods (plat : Platform) : List Pod → Int × Int → Except Fault (Int × Int)
  | [], acc => .ok acc
  | pod :: rest, acc =>
    match demandContainers plat pod.Spec.Containers acc with
    | .error f => .error f
    | .ok acc1 => demandPods plat rest acc1

/-- The values of `spaceRequired` and `memoryRequired` after the loop of lines
301-341. -/
def fitDemand (plat : Platform) (pods : List Pod) : Except Fault (Int × Int) :=
  demandPods plat pods (0, 0)

/-! ## `fit`: the scan of the nodes (lines 345-403) -/

/-- Go `%d` of an `int`. -/
def fmtInt (x : Int) : String := toString x

/-- The message of line 387. -/
def nodeMessage (name : String) (allocatableCores freeSpace allocatablememory freeMemory : Int) :
    String :=
  "Node_name (" ++ name ++ "): \nCPU_total:" ++ fmtInt allocatableCores ++ "m CPU_free:" ++
    fmtInt freeSpace ++ "m \nMEMORY_total:" ++ fmtInt allocatablememory ++ "M MEMORY_free:" ++
    fmtInt freeMemory ++ "M\n"

/-- The message of line 390. -/
def fitFailureMessage (name : String) : String :=
  "fit failure on node (" ++ name ++ "): Insufficient CPU"

/-- The loop of lines 395-400: `bind` is called for every pod of the group; an
error is logged and the loop goes on. `i` numbers the calls. -/
def bindAll (bindErr : Nat → Option String) (node : Node) : List Pod → Nat → List Effect
  | [], _ => []
  | pod :: rest, i =>
    match bindErr i with
    | none => .bind pod node :: bindAll bindErr node rest (i + 1)
    | some e => .bind pod node :: .log e :: bindAll bindErr node rest (i + 1)

/-- Allocatable CPU and memory of a node (lines 346-384). -/
def nodeAllocatable (plat : Platform) (node : Node) : Except Fault (Int × Int) :=
  match fitCPU plat node.Status.Allocatable.cpu with
  | .error f => .error f
  | .ok allocatableCores =>
    match allocatableMemory plat node.Status.Allocatable.memory with
    | .error f => .error f
    | .ok allocatablememory => .ok (allocatableCores, allocatablememory)

/-- The four integers that lines 346-386 compute for a node. -/
structure Capacity where
  allocatableCores : Int
  allocatablememory : Int
  freeSpace : Int
  freeMemory : Int
  deriving DecidableEq, Repr

/-- Lines 346-386 for a node: the allocatable amounts, then
`freeSpace := allocatableCores - resourceUsage[name].CPU` and
`freeMemory := allocatablememory - resourceUsage[name].MEMORY`. -/
def nodeCapacity (plat : Platform) (resourceUsage : Ledger) (node : Node) :
    Except Fault Capacity :=
  match nodeAllocatable plat node with
  | .error f => .error f
  | .ok alloc =>
    match resourceUsage node.Metadata.Name with
    | none => .error nilDeref
    | some ru => .ok ⟨alloc.1, alloc.2, subInt alloc.1 ru.CPU, subInt alloc.2 ru.MEMORY⟩

/-- What the scan leaves behind: `nodes`, `fitFailures` and the effects. -/
structure ScanResult where
  nodes : List Node
  fitFailures : List String
  trace : List Effect
  deriving DecidableEq, Repr

/-- The loop `for _, node := range nodeList.Items` (lines 345-403). -/
def scanNodes (plat : Platform) (resourceUsage : Ledger) (bindErr : Nat → Option String)
    (pods : List Pod) (spaceRequired memoryRequired : Int) :
    List Node → List String → List Effect → Except Fault ScanResult
  | [], fitFailures, trace => .ok ⟨[], fitFailures, trace⟩
  | node :: rest, fitFailures, trace =>
    match nodeCapacity plat resourceUsage node with
    | .error f => .error f
    | .ok c =>
      let trace1 := trace ++
        [Effect.log (nodeMessage node.Metadata.Name c.allocatableCores c.freeSpace
          c.allocatablememory c.freeMemory)]
      if c.freeSpace < spaceRequired ∨ c.freeMemory < memoryRequired then
        scanNodes plat resourceUsage bindErr pods spaceRequired memoryRequired rest
          (fitFailures ++ [fitFailureMessage node.Metadata.Name]) trace1
      else
        .ok ⟨[node], fitFailures, trace1 ++ bindAll bindErr node pods 0⟩

/-- The event of lines 408-423; `pod` is the variable of line 223. -/
def failedEvent (pod : Pod) (fitFailures : List String) (timestamp : String) : Event :=
  { Count := 1
    Message := "pod (" ++ pod.Metadata.Name ++ ") failed to fit in any node\n" ++
      joinStrings "\n" fitFailures
    GenerateName := pod.Metadata.Name ++ "-"
    Reason := "FailedScheduling"
    LastTimestamp := timestamp
    FirstTimestamp := timestamp
    EventType := "Warning"
    Component := "hightower-scheduler"
    InvolvedObject := ⟨"Pod", pod.Metadata.Name, "default", pod.Metadata.Uid⟩ }

/-- What `fit` returns without error, and the effects of the run. -/
structure FitResult where
  nodes : List Node
  trace : List Effect
  deriving DecidableEq, Repr

/-- The function `fit` (kubernetes.go, lines 222-432). The group `pods` is a
list of pods: the pointers of the Go slice are not nil. -/
def fit (plat : Platform) (cl : Cluster) (pods : List Pod) : Except Fault FitResult :=
  let pod : Pod := Pod.zero
  match cl.getNodes with
  | .error e => .error (.error (.transport e))
  | .ok nodeList =>
    match cl.getPods with
    | .error e => .error (.error (.transport e))
    | .ok podList =>
      match fitLedger plat nodeList podList with
      | .error f => .error f
      | .ok resourceUsage =>
        match fitDemand plat pods with
        | .error f => .error f
        | .ok required =>
          match scanNodes plat resourceUsage cl.bindErr pods required.1 required.2 nodeList [] [] with
          | .error f => .error f
          | .ok r =>
            if r.nodes.length = 0 then
              .ok ⟨r.nodes, r.trace ++ [Effect.postEvent (failedEvent pod r.fitFailures cl.now)]⟩
            else .ok ⟨r.nodes, r.trace⟩

/-- The calls of `bind` in a trace, in order. -/
def bindCalls : List Effect → List (Pod × Node)
  | [] => []
  | .bind pod node :: rest => (pod, node) :: bindCalls rest
  | _ :: rest => bindCalls rest

/-! ## `bestPrice` (bestprice.go) -/

/-- Lines 44-74 for one container of a pod bound to `nodeName`: the errors of
`Atoi` are ignored, a CPU request not ending in `m` is skipped. -/
def priceUsageContainer (nodeName : String) (m : Ledger) (c : Container) : Except Fault Ledger :=
  let cpu := c.Resources.Requests.cpu
  let memory := c.Resources.Requests.memory
  match (if hasSuffix cpu "m" then m.addCPU nodeName (Atoi (trimSuffix cpu "m")).1 else .ok m) with
  | .error f => .error f
  | .ok m1 =>
    if hasSuffix memory "Mi" then m1.addMEMORY nodeName (Atoi (trimSuffix memory "Mi")).1
    else if hasSuffix memory "Gi" then
      m1.addMEMORY nodeName (mulInt (Atoi (trimSuffix memory "Gi")).1 1024)
    else .ok m1

def priceUsageContainers (nodeName : String) : List Container → Ledger → Except Fault Ledger
  | [], m => .ok m
  | c :: cs, m =>
    match priceUsageContainer nodeName m c with
    | .error f => .error f
    | .ok m1 => priceUsageContainers nodeName cs m1

/-- The loop of lines 40-75. -/
def priceUsagePods : List Pod → Ledger → Except Fault Ledger
  | [], m => .ok m
  | p :: ps, m =>
    if p.Spec.NodeName = "" then priceUsagePods ps m
    else
      match priceUsageContainers p.Spec.NodeName p.Spec.Containers m with
      | .error f => .error f
      | .ok m1 => priceUsagePods ps m1

/-- The ledger of `bestPrice` (lines 36-75). -/
def priceLedger (nodeList : List Node) (podList : List Pod) : Except Fault Ledger :=
  priceUsagePods podList (newLedger nodeList Ledger.empty)

/-- Lines 82-95: allocatable CPU of a node, errors ignored. -/
def priceAllocatableCPU (plat : Platform) (raw : String) : Int :=
  if hasSuffix raw "m" then (Atoi (trimSuffix raw "m")).1
  else floatToInt plat (mul1000 (ParseFloat32 raw).1)

/-- Lines 96-110: allocatable memory of a node, errors ignored. -/
def priceAllocatableMemory (plat : Platform) (raw : String) : Int :=
  if hasSuffix raw "Ki" then quoInt (Atoi (trimSuffix raw "Ki")).1 1024
  else floatToInt plat (mul1000 (ParseFloat32 raw).1)

/-- The values `freeSpace` and `freeMemory` of lines 112-113 for a node. -/
def priceFree (plat : Platform) (resourceUsage : Ledger) (node : Node) : Except Fault (Int × Int) :=
  match resourceUsage node.Metadata.Name with
  | none => .error nilDeref
  | some ru =>
    .ok (subInt (priceAllocatableCPU plat node.Status.Allocatable.cpu) ru.CPU,
         subInt (priceAllocatableMemory plat node.Status.Allocatable.memory) ru.MEMORY)

/-- The value `f` of line 115: half the sum, by integer division, converted to
`float64`. -/
def price (free : Int × Int) : Int := intToFloat64 (quoInt (addInt free.1 free.2) 2)

/-- The local type `NodePrice`; `Price` is the exact value of the `float64`. -/
structure NodePrice where
  Node : Node
  Price : Int
  deriving DecidableEq, Repr

/-- The loop of lines 78-128; `nodes` is the argument of `bestPrice`, to which
every node is appended. -/
def priceScan (plat : Platform) (resourceUsage : Ledger) :
    List Node → List Node → Option NodePrice → Except Fault (List Node × Option NodePrice)
  | [], nodes, bestNodePrice => .ok (nodes, bestNodePrice)
  | node :: rest, nodes, bestNodePrice =>
    match priceFree plat resourceUsage node with
    | .error f => .error f
    | .ok free =>
      let f := price free
      match bestNodePrice with
      | none => priceScan plat resourceUsage rest (nodes ++ [node]) (some ⟨node, f⟩)
      | some b =>
        priceScan plat resourceUsage rest (nodes ++ [node])
          (some (if f > b.Price then ⟨node, f⟩ else b))

/-- The value of `bestNodePrice` at line 133. The errors of `getNodes` and
`getPods` are ignored and the nil result is dereferenced. -/
def bestNodePrice (plat : Platform) (cl : Cluster) (nodes : List Node) : Except Fault NodePrice :=
  match cl.getNodes, cl.getPods with
  | .ok nodeList, .ok podList =>
    match priceLedger nodeList podList with
    | .error f => .error f
    | .ok resourceUsage =>
      match priceScan plat resourceUsage nodeList nodes none with
      | .error f => .error f
      | .ok (_, some b) => .ok b
      | .ok ([], none) => .error indexOutOfRange
      | .ok (n :: _, none) => .ok ⟨n, 0⟩
  | _, _ => .error nilDeref

/-- The function `bestPrice` (bestprice.go, lines 22-135): the node returned;
the `error` returned is always nil. -/
def bestPrice (plat : Platform) (cl : Cluster) (nodes : List Node) : Except Fault Node :=
  match bestNodePrice plat cl nodes with
  | .error f => .error f
  | .ok b => .ok b.Node

/-! ## Free capacity as each selector computes it -/

/-- The pair `(freeSpace, freeMemory)` that `fit` computes for `node` from a
snapshot. -/
def fitFree (plat : Platform) (nodeList : List Node) (podList : List Pod) (node : Node) :
    Except Fault (Int × Int) :=
  match fitLedger plat nodeList podList with
  | .error f => .error f
  | .ok resourceUsage =>
    match nodeCapacity plat resourceUsage node with
    | .error f => .error f
    | .ok c => .ok (c.freeSpace, c.freeMemory)

/-- The pair `(freeSpace, freeMemory)` that `bestPrice` computes for `node`
from a snapshot. -/
def bestPriceFree (plat : Platform) (nodeList : List Node) (podList : List Pod) (node : Node) :
    Except Fault (Int × Int) :=
  match priceLedger nodeList podList with
  | .error f => .error f
  | .ok resourceUsage => priceFree plat resourceUsage node

/-! ## Section 4.1 of the specification, in its own words

The normalizer that the specification describes, in unbounded integers, to be
compared with the conversions of the source. -/

/-- Section 4.1, "parse as a decimal number and multiply by 1000, truncating
to integer": the decimal is read exactly. -/
def specDecimalTimes1000 (raw : String) : Except Fault Int :=
  match readFloat raw.data with
  | none => .error (.error (.num ⟨"normalize", raw, .invalid⟩))
  | some r =>
    if r.hex then .error (.error (.num ⟨"normalize", raw, .invalid⟩))
    else
      let t : Nat :=
        if 0 ≤ r.exp then r.mantissa * 10 ^ r.exp.toNat * 1000
        else r.mantissa * 1000 / 10 ^ (-r.exp).toNat
      .ok (if r.neg then -(t : Int) else t)

/-- Section 4.1, `normalizeCPU`: a string ending in `m` is an integer count of
millicores; any other string is a decimal number of cores, multiplied by 1000
and truncated. -/
def specNormalizeCPU (raw : String) : Except Fault Int :=
  if hasSuffix raw "m" then checked (Atoi (trimSuffix raw "m"))
  else specDecimalTimes1000 raw

/-- Section 4.1, `normalizeMemory`: `Ki` is divided by 1024 with truncation,
`Gi` is multiplied by 1000, `Mi` is taken as it is, any other form is a bare
decimal multiplied by 1000. -/
def specNormalizeMemory (raw : String) : Except Fault Int :=
  if hasSuffix raw "Ki" then
    match checked (Atoi (trimSuffix raw "Ki")) with
    | .error f => .error f
    | .ok n => .ok (Int.tdiv n 1024)
  else if hasSuffix raw "Gi" then
    match checked (Atoi (trimSuffix raw "Gi")) with
    | .error f => .error f
    | .ok n => .ok (n * 1000)
  else if hasSuffix raw "Mi" then checked (Atoi (trimSuffix raw "Mi"))
  else specDecimalTimes1000 raw

/-- Section 4.2: the sum of the normalized requests of a list of containers. -/
def specContainersSum : List Container → Except Fault ResourceUsage
  | [] => .ok ⟨0, 0⟩
  | c :: cs =>
    match specNormalizeCPU c.Resources.Requests.cpu,
          specNormalizeMemory c.Resources.Requests.memory, specContainersSum cs with
    | .ok cpu, .ok memory, .ok rest => .ok ⟨cpu + rest.CPU, memory + rest.MEMORY⟩
    | .error f, _, _ => .error f
    | _, .error f, _ => .error f
    | _, _, .error f => .error f

/-- Section 4.2, "sum of normalized requests over units bound to node": the
sum over all containers of all pods whose `NodeName` is `name`. -/
def specUsed (name : String) : List Pod → Except Fault ResourceUsage
  | [] => .ok ⟨0, 0⟩
  | p :: ps =>
    if p.Spec.NodeName = name then
      match specContainersSum p.Spec.Containers, specUsed name ps with
      | .ok a, .ok b => .ok ⟨a.CPU + b.CPU, a.MEMORY + b.MEMORY⟩
      | .error f, _ => .error f
      | _, .error f => .error f
    else specUsed name ps

/-- The accumulator that the ledger of `fit` holds for the node `name`. -/
def fitUsed (plat : Platform) (nodeList : List Node) (podList : List Pod) (name : String) :
    Except Fault (Option ResourceUsage) :=
  match fitLedger plat nodeList podList with
  | .error f => .error f
  | .ok resourceUsage => .ok (resourceUsage name)

/-! ## The sums that the ledger of `fit` accumulates -/

/-- The CPU amount that line 253 or 262 adds for a container. -/
def cpuOf (plat : Platform) (c : Container) : Int :=
  match fitCPU plat c.Resources.Requests.cpu with
  | .ok v => v
  | .error _ => 0

/-- The memory amount that line 272 or 280 adds for a container; 0 when
neither branch applies. -/
def memoryOf (c : Container) : Int :=
  match usageMemory c.Resources.Requests.memory with
  | .ok (some v) => v
  | _ => 0

def containersCPU (plat : Platform) : List Container → Int
  | [] => 0
  | c :: cs => cpuOf plat c + containersCPU plat cs

def containersMemory : List Container → Int
  | [] => 0
  | c :: cs => memoryOf c + containersMemory cs

/-- The sum of `cpuOf` over all containers of all pods bound to `name`. -/
def usedCPU (plat : Platform) (name : String) : List Pod → Int
  | [] => 0
  | p :: ps =>
    (if p.Spec.NodeName ≠ "" ∧ p.Spec.NodeName = name then containersCPU plat p.Spec.Containers
      else 0) + usedCPU plat name ps

/-- The sum of `memoryOf` over all containers of all pods bound to `name`. -/
def usedMemory (name : String) : List Pod → Int
  | [] => 0
  | p :: ps =>
    (if p.Spec.NodeName ≠ "" ∧ p.Spec.NodeName = name then containersMemory p.Spec.Containers
      else 0) + usedMemory name ps

/-- Every amount held by the ledger is an `int`. -/
def Ledger.InRange (m : Ledger) : Prop :=
  ∀ k ru, m k = some ru → wrap64 ru.CPU = ru.CPU ∧ wrap64 ru.MEMORY = ru.MEMORY

/-- The ledger `m1` is `m` with `dc k` added to the CPU and `dm k` to the
memory of every accumulator `k`, in the arithmetic of `int`. -/
def Ledger.Adds (m m1 : Ledger) (dc dm : String → Int) : Prop :=
  ∀ k, m1 k = (m k).map (fun ru => ⟨wrap64 (ru.CPU + dc k), wrap64 (ru.MEMORY + dm k)⟩)

/-- The pods of a snapshot can be entered in the ledger `m`: every request of
a bound pod converts and the pod's node has an accumulator. -/
def Ledger.Accepts (plat : Platform) (m : Ledger) (ps : List Pod) : Prop :=
  ∀ p ∈ ps, p.Spec.NodeName ≠ "" → ∀ c ∈ p.Spec.Containers,
    (∃ v, fitCPU plat c.Resources.Requests.cpu = .ok v) ∧
    (∃ o, usageMemory c.Resources.Requests.memory = .ok o) ∧
    (m p.Spec.NodeName).isSome = true

/-! ## Concrete snapshots -/

/-- Scenario A: NodeA with 2000m CPU and 4096 memory units. -/
def nodeA : Node := mkNode "NodeA" "2000m" "4096"

/-- Scenario A: NodeB with 1000m CPU and 2048 memory units. -/
def nodeB : Node := mkNode "NodeB" "1000m" "2048"

/-- Scenario A: one unit asking for 500m CPU and 1024 memory units. -/
def unitA : Pod := mkPod "unit" "uid-1" "" [mkContainer "500m" "1024"]

def clusterAB : Cluster := ⟨.ok [nodeA, nodeB], .ok [], fun _ => none, "now"⟩

def clusterBA : Cluster := ⟨.ok [nodeB, nodeA], .ok [], fun _ => none, "now"⟩

def resultAB : FitResult :=
  ⟨[nodeA], [.log (nodeMessage "NodeA" 2000 2000 4096 4096), .bind unitA nodeA]⟩

def resultBA : FitResult :=
  ⟨[nodeB], [.log (nodeMessage "NodeB" 1000 1000 2048 2048), .bind unitA nodeB]⟩

/-- Scenario B: one node with 100m CPU and 256 memory units free. -/
def nodeSmall : Node := mkNode "node-b" "100m" "256"

/-- Scenario B: a unit asking for 500m CPU and 128 memory units. -/
def unitB : Pod := mkPod "unit-b" "uid-7" "" [mkContainer "500m" "128"]

def clusterB : Cluster := ⟨.ok [nodeSmall], .ok [], fun _ => none, "now"⟩

/-- Scenario A with every call of `bind` failing. -/
def clusterABFailing : Cluster :=
  ⟨.ok [nodeA, nodeB], .ok [], fun _ => some "Binding: Unexpected HTTP status code500", "now"⟩

/-- A node as a cluster reports it: memory in `Ki`. -/
def nodeKi : Node := mkNode "node-1" "4000m" "16393292Ki"

/-- A node with 1000m CPU and 1024 memory units. -/
def node1 : Node := mkNode "node-1" "1000m" "1024"

/-- A pod bound to `node-1` whose memory request has an unknown suffix. -/
def boundUnknownSuffix : Pod := mkPod "bound" "uid-2" "node-1" [mkContainer "100m" "512Qi"]

/-- A pod bound to `node-1` whose memory request is given in `Ki`. -/
def boundKi : Pod := mkPod "bound" "uid-3" "node-1" [mkContainer "100m" "2048Ki"]

def clusterUnknownSuffix : Cluster := ⟨.ok [node1], .ok [boundUnknownSuffix], fun _ => none, "now"⟩

/-- A pod bound to `node-1` that requests more CPU than the node has. -/
def boundBig : Pod := mkPod "big" "uid-4" "node-1" [mkContainer "2000m" "0Mi"]

def clusterOver : Cluster := ⟨.ok [node1], .ok [boundBig], fun _ => none, "now"⟩

/-- A unit whose CPU request is a negative integer. -/
def unitNeg : Pod := mkPod "neg" "uid-5" "" [mkContainer "-1500m" "0"]

def clusterEmpty : Cluster := ⟨.ok [], .ok [], fun _ => none, "now"⟩

/-- Two nodes whose sums of free CPU and free memory are 1000 and 1001. -/
def nodeX : Node := mkNode "node-x" "999m" "1024Ki"

def nodeY : Node := mkNode "node-y" "1000m" "1024Ki"

def clusterXY : Cluster := ⟨.ok [nodeX, nodeY], .ok [], fun _ => none, "now"⟩

/-- A pod bound to a node that is not in the node list. -/
def boundStale : Pod := mkPod "stale" "uid-6" "gone" [mkContainer "100m" "64Mi"]

def clusterStale : Cluster := ⟨.ok [node1], .ok [boundStale], fun _ => none, "now"⟩

def clusterEmptyStale : Cluster := ⟨.ok [], .ok [boundStale], fun _ => none, "now"⟩

/-- The arithmetic mean of free CPU and free memory. -/
def arithmeticMean (free : Int × Int) : ℚ := ((free.1 : ℚ) + (free.2 : ℚ)) / 2

/-- The score of line 115 that `bestPrice` gives a node: half the sum of its
free CPU and free memory by integer division, as a `float64`. -/
def nodePrice (plat : Platform) (resourceUsage : Ledger) (node : Node) : Int :=
  match priceFree plat resourceUsage node with
  | .ok free => price free
  | .error _ => 0

/-- The events posted in a trace, in order. -/
def postedEvents : List Effect → List Event
  | [] => []
  | .postEvent event :: rest => event :: postedEvents rest
  | _ :: rest => postedEvents rest

/-- A unit asking for more CPU than `NodeA` or `NodeB` has. -/
def unitBig : Pod := mkPod "unit-big" "uid-17" "" [mkContainer "5000m" "128"]

/-- What `fit` returns for `unitBig` on the nodes `NodeA`, `NodeB`, and its
effects: two log lines and the event, its message written out. -/
def resultBig : FitResult :=
  ⟨[], [.log (nodeMessage "NodeA" 2000 2000 4096 4096),
    .log (nodeMessage "NodeB" 1000 1000 2048 2048),
    .postEvent ⟨1,
      "pod () failed to fit in any node\nfit failure on node (NodeA): Insufficient CPU\nfit failure on node (NodeB): Insufficient CPU",
      "-", "FailedScheduling", "now", "now", "Warning", "hightower-scheduler",
      ⟨"Pod", "", "default", ""⟩⟩]⟩

/-- A node with enough CPU and too little memory for `unitM`. -/
def nodeM : Node := mkNode "node-m" "1000m" "256"

/-- A unit asking for 500m CPU and 1024 memory units. -/
def unitM : Pod := mkPod "unit-m" "uid-8" "" [mkContainer "500m" "1024"]

def clusterM : Cluster := ⟨.ok [nodeM], .ok [], fun _ => none, "now"⟩

/-- The fault is an `error` value returned by the Go function, not a panic. -/
def Fault.IsGoError (f : Fault) : Prop := ∃ e, f = .error e

/-- A pod bound to `NodeB` with two containers. -/
def boundB : Pod :=
  mkPod "on-b" "uid-12" "NodeB" [mkContainer "250m" "512Mi", mkContainer "0.5" "1Gi"]

/-! ## Quantities written as numbers -/

/-- The number that a string of decimal digits denotes. -/
def digitsNat (ds : List Char) : Nat := ds.foldl (fun acc c => 10 * acc + digitVal c) 0

/-- A non-empty string of decimal digits. -/
def IsDigits (ds : List Char) : Prop := ds ≠ [] ∧ ∀ c ∈ ds, isDigit c = true

/-- The number that stands before the two-letter suffix of a quantity string. -/
def quantityNat (raw : String) : Nat := digitsNat (raw.data.take (raw.data.length - 2))

/-- The sum of the numbers `m_i` over the memory requests of a list of
containers. -/
def containersMi : List Container → Int
  | [] => 0
  | c :: cs => (quantityNat c.Resources.Requests.memory : Int) + containersMi cs

/-- The sum of the numbers `m_i` over all containers of all pods bound to
`name`. -/
def boundMi (name : String) : List Pod → Int
  | [] => 0
  | p :: ps =>
    (if p.Spec.NodeName ≠ "" ∧ p.Spec.NodeName = name then containersMi p.Spec.Containers
      else 0) + boundMi name ps

/-- Scenario C: a node whose allocatable memory is `2Gi`. -/
def nodeC : Node := mkNode "node-c" "1000m" "2Gi"

/-- Scenario C: a pod bound to `node-c` that requests `512Mi`. -/
def boundC : Pod := mkPod "on-c" "uid-13" "node-c" [mkContainer "100m" "512Mi"]

/-- A node whose allocatable memory is `16777217Gi`, one more than 2^24. -/
def nodeG : Node := mkNode "node-g" "1000m" "16777217Gi"

/-- A pod bound to `node-c` whose two requests add up to more than an `int`. -/
def boundHuge : Pod :=
  mkPod "huge" "uid-14" "node-c"
    [mkContainer "100m" "9223372036854775807Mi", mkContainer "100m" "9223372036854775807Mi"]

/-- A pod bound to `node-1` that requests 0.7 cores. -/
def boundSeven : Pod := mkPod "seven" "uid-15" "node-1" [mkContainer "0.7" "0Mi"]

/-- A unit that requests 0.7 cores. -/
def unitSeven : Pod := mkPod "unit-7" "uid-16" "" [mkContainer "0.7" "0"]

/-- A node with 0.7 cores. -/
def nodeSeven : Node := mkNode "node-7" "0.7" "1024"

/-- A second node with the capacities of `NodeA`. -/
def nodeA2 : Node := mkNode "NodeA2" "2000m" "4096"

/-- Three nodes, the greatest score shared by the second and the third, and a
pod bound to the first. -/
def clusterThree : Cluster := ⟨.ok [nodeB, nodeA, nodeA2], .ok [boundB], fun _ => none, "now"⟩

/-- A pod bound to `NodeB` whose memory request `fit` cannot convert. -/
def boundFraction : Pod := mkPod "fraction" "uid-18" "NodeB" [mkContainer "100m" "1.5Gi"]

/-- A node with 4000m CPU and 8 Gi of memory, given in `Ki`. -/
def nodeGood : Node := mkNode "n-good" "4000m" "8388608Ki"

/-- A node whose CPU quantity is a digit run that leaves `uint64`, followed by
a letter. -/
def nodeRange : Node := mkNode "n-bad" "99999999999999999999xm" "0Ki"

def clusterRange : Cluster := ⟨.ok [nodeGood, nodeRange], .ok [], fun _ => none, "now"⟩

/-! ## Theorems -/

theorem wrap64_of_inRange (x : Int) (h1 : minInt64 ≤ x) (h2 : x ≤ maxInt64) : wrap64 x = x := by
  unfold wrap64
  unfold minInt64 at h1
  unfold maxInt64 at h2
  omega

theorem bindCalls_append (a b : List Effect) : bindCalls (a ++ b) = bindCalls a ++ bindCalls b := by
  induction a with
  | nil => rfl
  | cons x xs ih => cases x <;> simp [bindCalls, ih]

theorem bindCalls_bindAll (bindErr : Nat → Option String) (node : Node) (pods : List Pod) (i : Nat) :
    bindCalls (bindAll bindErr node pods i) = pods.map (fun u => (u, node)) := by
  induction pods generalizing i with
  | nil => rfl
  | cons u us ih =>
    unfold bindAll
    cases bindErr i <;> simp [bindCalls, ih]

/-- What a successful scan of the nodes has done: either every node was
rejected, or the first node that passes the test of line 389 was taken. -/
theorem scanNodes_ok (plat : Platform) (L : Ledger) (bindErr : Nat → Option String)
    (pods : List Pod) (dc dm : Int) (nodes : List Node) (ff : List String) (tr : List Effect)
    (r : ScanResult) (h : scanNodes plat L bindErr pods dc dm nodes ff tr = .ok r) :
    (r.nodes = [] ∧
      r.fitFailures = ff ++ nodes.map (fun n => fitFailureMessage n.Metadata.Name) ∧
      bindCalls r.trace = bindCalls tr ∧
      ∀ n ∈ nodes, ∃ c, nodeCapacity plat L n = .ok c ∧ (c.freeSpace < dc ∨ c.freeMemory < dm)) ∨
    (∃ pre N post, nodes = pre ++ N :: post ∧ r.nodes = [N] ∧
      r.fitFailures = ff ++ pre.map (fun n => fitFailureMessage n.Metadata.Name) ∧
      bindCalls r.trace = bindCalls tr ++ pods.map (fun u => (u, N)) ∧
      (∃ c, nodeCapacity plat L N = .ok c ∧ dc ≤ c.freeSpace ∧ dm ≤ c.freeMemory) ∧
      ∀ n ∈ pre, ∃ c, nodeCapacity plat L n = .ok c ∧ (c.freeSpace < dc ∨ c.freeMemory < dm)) := by
  induction nodes generalizing ff tr with
  | nil =>
    left
    simp only [scanNodes, Except.ok.injEq] at h
    subst h
    simp
  | cons node rest ih =>
    unfold scanNodes at h
    cases hc : nodeCapacity plat L node with
    | error f => rw [hc] at h; cases h
    | ok c =>
      rw [hc] at h
      simp only at h
      by_cases hlt : c.freeSpace < dc ∨ c.freeMemory < dm
      · rw [if_pos hlt] at h
        rcases ih _ _ h with ⟨h1, h2, h3, h4⟩ | ⟨pre, N, post, h1, h2, h3, h4, h5, h6⟩
        · left
          refine ⟨h1, ?_, ?_, ?_⟩
          · simp [h2]
          · simp [h3, bindCalls_append, bindCalls]
          · intro n hn
            rcases List.mem_cons.mp hn with rfl | hn
            · exact ⟨c, hc, hlt⟩
            · exact h4 n hn
        · right
          refine ⟨node :: pre, N, post, by simp [h1], h2, ?_, ?_, h5, ?_⟩
          · simp [h3]
          · simp [h4, bindCalls_append, bindCalls]
          · intro n hn
            rcases List.mem_cons.mp hn with rfl | hn
            · exact ⟨c, hc, hlt⟩
            · exact h6 n hn
      · rw [if_neg hlt] at h
        simp only [Except.ok.injEq] at h
        subst h
        right
        refine ⟨[], node, rest, rfl, rfl, by simp, ?_, ⟨c, hc, ?_, ?_⟩, by simp⟩
        · simp [bindCalls_append, bindCalls, bindCalls_bindAll]
        · omega
        · omega

/-- The steps of a run of `fit` that returns without error. -/
theorem fit_ok_steps (plat : Platform) (cl : Cluster) (pods : List Pod) (r : FitResult)
    (h : fit plat cl pods = .ok r) :
    ∃ nodeList podList L d s, cl.getNodes = .ok nodeList ∧ cl.getPods = .ok podList ∧
      fitLedger plat nodeList podList = .ok L ∧ fitDemand plat pods = .ok d ∧
      scanNodes plat L cl.bindErr pods d.1 d.2 nodeList [] [] = .ok s ∧
      r.nodes = s.nodes ∧ bindCalls r.trace = bindCalls s.trace := by
  unfold fit at h
  cases hn : cl.getNodes with
  | error e => rw [hn] at h; cases h
  | ok nodeList =>
    cases hp : cl.getPods with
    | error e => rw [hn, hp] at h; cases h
    | ok podList =>
      cases hL : fitLedger plat nodeList podList with
      | error f => rw [hn, hp] at h; simp only [hL] at h; cases h
      | ok L =>
        cases hd : fitDemand plat pods with
        | error f => rw [hn, hp] at h; simp only [hL, hd] at h; cases h
        | ok d =>
          cases hs : scanNodes plat L cl.bindErr pods d.1 d.2 nodeList [] [] with
          | error f => rw [hn, hp] at h; simp only [hL, hd, hs] at h; cases h
          | ok s =>
            rw [hn, hp] at h
            simp only [hL, hd, hs] at h
            refine ⟨nodeList, podList, L, d, s, rfl, rfl, hL, rfl, hs, ?_⟩
            split at h
            · simp only [Except.ok.injEq] at h
              subst h
              simp [bindCalls_append, bindCalls]
            · simp only [Except.ok.injEq] at h
              subst h
              simp

theorem nodeCapacity_ok (plat : Platform) (L : Ledger) (node : Node) (c : Capacity)
    (h : nodeCapacity plat L node = .ok c) :
    ∃ ru, nodeAllocatable plat node = .ok (c.allocatableCores, c.allocatablememory) ∧
      L node.Metadata.Name = some ru ∧
      c.freeSpace = subInt c.allocatableCores ru.CPU ∧
      c.freeMemory = subInt c.allocatablememory ru.MEMORY := by
  unfold nodeCapacity at h
  cases ha : nodeAllocatable plat node with
  | error f => rw [ha] at h; cases h
  | ok alloc =>
    rw [ha] at h
    cases hl : L node.Metadata.Name with
    | none => simp only [hl] at h; cases h
    | some ru =>
      simp only [hl, Except.ok.injEq] at h
      subst h
      exact ⟨ru, rfl, rfl, rfl, rfl⟩

theorem scanNodes_bindErr (plat : Platform) (L : Ledger) (be be' : Nat → Option String)
    (pods : List Pod) (dc dm : Int) (nodes : List Node) (ff : List String) (tr : List Effect)
    (r : ScanResult) (h : scanNodes plat L be pods dc dm nodes ff tr = .ok r) :
    ∃ r', scanNodes plat L be' pods dc dm nodes ff tr = .ok r' ∧ r'.nodes = r.nodes ∧
      r'.fitFailures = r.fitFailures ∧ bindCalls r'.trace = bindCalls r.trace := by
  induction nodes generalizing ff tr with
  | nil =>
    simp only [scanNodes, Except.ok.injEq] at h
    subst h
    exact ⟨_, rfl, rfl, rfl, rfl⟩
  | cons node rest ih =>
    unfold scanNodes at h ⊢
    cases hc : nodeCapacity plat L node with
    | error f => rw [hc] at h; cases h
    | ok c =>
      rw [hc] at h
      simp only at h ⊢
      by_cases hlt : c.freeSpace < dc ∨ c.freeMemory < dm
      · rw [if_pos hlt] at h ⊢
        exact ih _ _ h
      · rw [if_neg hlt] at h ⊢
        simp only [Except.ok.injEq] at h
        subst h
        exact ⟨_, rfl, rfl, rfl, by simp [bindCalls_append, bindCalls_bindAll, bindCalls]⟩

/-- Scenario A of the specification, in both orders of the node list: the
group goes to the node listed first. -/
theorem scenarioA_both_orders :
    fit amd64 clusterAB [unitA] = .ok resultAB ∧ fit amd64 clusterBA [unitA] = .ok resultBA := by
  decide

/-- Scenario B of the specification: the only node has too little CPU, no node
is returned, one reason is recorded and no `bind` call is issued. -/
theorem scenarioB_no_commit :
    (fit amd64 clusterB [unitB]).map (fun r => (r.nodes, bindCalls r.trace)) = .ok ([], []) ∧
      (scanNodes amd64 (newLedger [nodeSmall] Ledger.empty) clusterB.bindErr [unitB] 500 128
          [nodeSmall] [] []).map (fun s => s.fitFailures) =
        .ok ["fit failure on node (node-b): Insufficient CPU"] := by
  decide

/-- Scenario A with failing `bind` calls: the node returned and the calls
issued are the same, each failure is logged. -/
theorem scenarioA_bind_failures :
    fit amd64 clusterABFailing [unitA] =
      .ok ⟨[nodeA], [.log (nodeMessage "NodeA" 2000 2000 4096 4096), .bind unitA nodeA,
        .log "Binding: Unexpected HTTP status code500"]⟩ := by
  decide

/-- C1. Batch placement soundness: when `fit` returns a node `N` without error,
`N` is a node of the fetched list and its free CPU, the allocatable CPU minus
the CPU used in the ledger, is at least the aggregate CPU demand of the group,
and likewise for memory. The subtraction is that of the Go `int`; where it does
not overflow the inequality holds of the integers themselves. -/
theorem fit_placement_sound (plat : Platform) (cl : Cluster) (pods : List Pod) (r : FitResult)
    (N : Node) (h : fit plat cl pods = .ok r) (hN : N ∈ r.nodes) :
    ∃ nodeList podList L d alloc ru,
      cl.getNodes = .ok nodeList ∧ cl.getPods = .ok podList ∧ N ∈ nodeList ∧
      fitLedger plat nodeList podList = .ok L ∧ fitDemand plat pods = .ok d ∧
      nodeAllocatable plat N = .ok alloc ∧ L N.Metadata.Name = some ru ∧
      d.1 ≤ subInt alloc.1 ru.CPU ∧ d.2 ≤ subInt alloc.2 ru.MEMORY ∧
      (minInt64 ≤ alloc.1 - ru.CPU → alloc.1 - ru.CPU ≤ maxInt64 → d.1 ≤ alloc.1 - ru.CPU) ∧
      (minInt64 ≤ alloc.2 - ru.MEMORY → alloc.2 - ru.MEMORY ≤ maxInt64 →
        d.2 ≤ alloc.2 - ru.MEMORY) := by
  obtain ⟨nodeList, podList, L, d, s, hn, hp, hL, hd, hs, hnodes, -⟩ := fit_ok_steps plat cl pods r h
  rcases scanNodes_ok plat L cl.bindErr pods d.1 d.2 nodeList [] [] s hs with
    ⟨h1, -, -, -⟩ | ⟨pre, M, post, h1, h2, -, -, ⟨c, hc, hcpu, hmem⟩, -⟩
  · rw [hnodes, h1] at hN
    cases hN
  · rw [hnodes, h2] at hN
    have hNM : N = M := by simpa using hN
    subst hNM
    obtain ⟨ru, ha, hl, hfs, hfm⟩ := nodeCapacity_ok plat L N c hc
    refine ⟨nodeList, podList, L, d, (c.allocatableCores, c.allocatablememory), ru, hn, hp,
      by simp [h1], hL, hd, ha, hl, ?_, ?_, ?_, ?_⟩
    · simpa [hfs] using hcpu
    · simpa [hfm] using hmem
    · intro a b
      have := wrap64_of_inRange _ a b
      simp only [subInt] at hfs
      rw [this] at hfs
      rw [← hfs]
      exact hcpu
    · intro a b
      have := wrap64_of_inRange _ a b
      simp only [subInt] at hfm
      rw [this] at hfm
      rw [← hfm]
      exact hmem

theorem fit_placement_sound_witness :
    fit amd64 clusterAB [unitA] = .ok resultAB ∧ nodeA ∈ resultAB.nodes ∧
    ∃ nodeList podList L d alloc ru,
      clusterAB.getNodes = .ok nodeList ∧ clusterAB.getPods = .ok podList ∧ nodeA ∈ nodeList ∧
      fitLedger amd64 nodeList podList = .ok L ∧ fitDemand amd64 [unitA] = .ok d ∧
      nodeAllocatable amd64 nodeA = .ok alloc ∧ L nodeA.Metadata.Name = some ru ∧
      d.1 ≤ subInt alloc.1 ru.CPU ∧ d.2 ≤ subInt alloc.2 ru.MEMORY ∧
      (minInt64 ≤ alloc.1 - ru.CPU → alloc.1 - ru.CPU ≤ maxInt64 → d.1 ≤ alloc.1 - ru.CPU) ∧
      (minInt64 ≤ alloc.2 - ru.MEMORY → alloc.2 - ru.MEMORY ≤ maxInt64 →
        d.2 ≤ alloc.2 - ru.MEMORY) :=
  ⟨by decide, by decide,
    fit_placement_sound amd64 clusterAB [unitA] resultAB nodeA (by decide) (by decide)⟩

/-- C2. First-fit with cardinality 0 or 1: when `fit` returns without error,
the node list it returns is empty, and then every node of the fetched list
fails the test (free CPU below the demand or free memory below the demand), or
it is the single node `N` standing first in the fetched list among those whose
free CPU and free memory both reach the demand. -/
theorem fit_first_fit (plat : Platform) (cl : Cluster) (pods : List Pod) (r : FitResult)
    (h : fit plat cl pods = .ok r) :
    ∃ nodeList podList L d,
      cl.getNodes = .ok nodeList ∧ cl.getPods = .ok podList ∧
      fitLedger plat nodeList podList = .ok L ∧ fitDemand plat pods = .ok d ∧
      ((r.nodes = [] ∧
          ∀ n ∈ nodeList, ∃ c, nodeCapacity plat L n = .ok c ∧
            (c.freeSpace < d.1 ∨ c.freeMemory < d.2)) ∨
        (∃ pre N post, nodeList = pre ++ N :: post ∧ r.nodes = [N] ∧
          (∃ c, nodeCapacity plat L N = .ok c ∧ d.1 ≤ c.freeSpace ∧ d.2 ≤ c.freeMemory) ∧
          ∀ n ∈ pre, ∃ c, nodeCapacity plat L n = .ok c ∧
            (c.freeSpace < d.1 ∨ c.freeMemory < d.2))) := by
  obtain ⟨nodeList, podList, L, d, s, hn, hp, hL, hd, hs, hnodes, -⟩ := fit_ok_steps plat cl pods r h
  refine ⟨nodeList, podList, L, d, hn, hp, hL, hd, ?_⟩
  rcases scanNodes_ok plat L cl.bindErr pods d.1 d.2 nodeList [] [] s hs with
    ⟨h1, -, -, h4⟩ | ⟨pre, M, post, h1, h2, -, -, h5, h6⟩
  · left
    exact ⟨by rw [hnodes, h1], h4⟩
  · right
    exact ⟨pre, M, post, h1, by rw [hnodes, h2], h5, h6⟩

theorem fit_first_fit_witness :
    fit amd64 clusterBA [unitA] = .ok resultBA ∧
    ∃ nodeList podList L d,
      clusterBA.getNodes = .ok nodeList ∧ clusterBA.getPods = .ok podList ∧
      fitLedger amd64 nodeList podList = .ok L ∧ fitDemand amd64 [unitA] = .ok d ∧
      ((resultBA.nodes = [] ∧
          ∀ n ∈ nodeList, ∃ c, nodeCapacity amd64 L n = .ok c ∧
            (c.freeSpace < d.1 ∨ c.freeMemory < d.2)) ∨
        (∃ pre N post, nodeList = pre ++ N :: post ∧ resultBA.nodes = [N] ∧
          (∃ c, nodeCapacity amd64 L N = .ok c ∧ d.1 ≤ c.freeSpace ∧ d.2 ≤ c.freeMemory) ∧
          ∀ n ∈ pre, ∃ c, nodeCapacity amd64 L n = .ok c ∧
            (c.freeSpace < d.1 ∨ c.freeMemory < d.2))) :=
  ⟨by decide, fit_first_fit amd64 clusterBA [unitA] resultBA (by decide)⟩

/-- C10. Commit trace: when `fit` returns without error, the calls of `bind` it
has issued are, in order, one call `bind(u, N)` for each unit `u` of the group
when a node `N` is returned, and none when no node is returned; and with any
other outcomes of the `bind` calls `fit` still returns without error, returns
the same nodes and issues the same calls. -/
theorem fit_commit_trace (plat : Platform) (cl : Cluster) (pods : List Pod) (r : FitResult)
    (h : fit plat cl pods = .ok r) :
    ((r.nodes = [] ∧ bindCalls r.trace = []) ∨
      (∃ N, r.nodes = [N] ∧ bindCalls r.trace = pods.map (fun u => (u, N)))) ∧
    ∀ bindErr : Nat → Option String,
      ∃ r', fit plat ⟨cl.getNodes, cl.getPods, bindErr, cl.now⟩ pods = .ok r' ∧
        r'.nodes = r.nodes ∧ bindCalls r'.trace = bindCalls r.trace := by
  obtain ⟨nodeList, podList, L, d, s, hn, hp, hL, hd, hs, hnodes, htrace⟩ :=
    fit_ok_steps plat cl pods r h
  constructor
  · rcases scanNodes_ok plat L cl.bindErr pods d.1 d.2 nodeList [] [] s hs with
      ⟨h1, -, h3, -⟩ | ⟨pre, M, post, -, h2, -, h4, -, -⟩
    · left
      exact ⟨by rw [hnodes, h1], by rw [htrace, h3]; rfl⟩
    · right
      exact ⟨M, by rw [hnodes, h2], by rw [htrace, h4]; rfl⟩
  · intro bindErr
    obtain ⟨s', hs', hn', -, ht'⟩ :=
      scanNodes_bindErr plat L cl.bindErr bindErr pods d.1 d.2 nodeList [] [] s hs
    unfold fit
    simp only [hn, hp, hL, hd, hs']
    split
    · exact ⟨_, rfl, by simp [hn', hnodes], by simp [bindCalls_append, bindCalls, ht', htrace]⟩
    · exact ⟨_, rfl, by simp [hn', hnodes], by simp [ht', htrace]⟩

theorem fit_commit_trace_witness :
    fit amd64 clusterAB [unitA] = .ok resultAB ∧
    (((resultAB.nodes = [] ∧ bindCalls resultAB.trace = []) ∨
      (∃ N, resultAB.nodes = [N] ∧
        bindCalls resultAB.trace = [unitA].map (fun u => (u, N)))) ∧
    ∀ bindErr : Nat → Option String,
      ∃ r', fit amd64 ⟨clusterAB.getNodes, clusterAB.getPods, bindErr, clusterAB.now⟩ [unitA] =
          .ok r' ∧
        r'.nodes = resultAB.nodes ∧ bindCalls r'.trace = bindCalls resultAB.trace) :=
  ⟨by decide, fit_commit_trace amd64 clusterAB [unitA] resultAB (by decide)⟩

/-- C3. Identical normalizer inside `fit`: on the quantity string `2048Ki` the
three memory conversions of `fit` give three different results; the ledger
skips the string (nothing is added and no error is raised), the demand of the
group is 2048 and the allocatable memory of a node is 2. -/
theorem fit_memory_conversions_differ (plat : Platform) :
    usageMemory "2048Ki" = .ok none ∧ demandMemory plat "2048Ki" = .ok 2048 ∧
      allocatableMemory plat "2048Ki" = .ok 2 :=
  ⟨by decide, rfl, rfl⟩

/-- C4. Both placement algorithms see the same free capacity: for the single
node with allocatable memory `16393292Ki` and no pods, `fit` computes the free
memory 16393 and `bestPrice` computes 16009. -/
theorem free_capacity_differs (plat : Platform) :
    fitFree plat [nodeKi] [] nodeKi = .ok (4000, 16393) ∧
      bestPriceFree plat [nodeKi] [] nodeKi = .ok (4000, 16009) :=
  ⟨rfl, rfl⟩

/-- C5. Parse failures are never a silent zero in `fit`: with a pod bound to
`node-1` whose memory request is `512Qi`, `fit` returns `node-1` without error,
and the free memory of `node-1` is its whole allocatable memory, 1024. -/
theorem fit_unknown_suffix_counts_zero :
    (fit amd64 clusterUnknownSuffix [unitA]).map (fun r => r.nodes) = .ok [node1] ∧
      fitFree amd64 [node1] [boundUnknownSuffix] node1 = .ok (900, 1024) := by
  decide

/-- C6. Ledger additivity: with one pod bound to `node-1` that requests `100m`
CPU and `2048Ki` memory, the ledger of `fit` records 0 memory for `node-1`,
where the sum of the requests normalized by section 4.1 is 2. -/
theorem fit_ledger_misses_Ki :
    fitUsed amd64 [node1] [boundKi] "node-1" = .ok (some ⟨100, 0⟩) ∧
      specUsed "node-1" [boundKi] = .ok ⟨100, 2⟩ := by
  decide

/-! ### The ledger holds an accumulator for every node of the list -/

theorem newLedger_isSome (nodes : List Node) (m : Ledger) (k : String) :
    (newLedger nodes m k).isSome = true ↔
      ((∃ n ∈ nodes, n.Metadata.Name = k) ∨ (m k).isSome = true) := by
  induction nodes generalizing m with
  | nil => simp [newLedger]
  | cons node rest ih =>
    rw [newLedger, ih]
    unfold Ledger.insert
    by_cases hk : k = node.Metadata.Name
    · simp [hk]
    · have hk' : ¬ node.Metadata.Name = k := fun h => hk h.symm
      simp [hk, hk']

theorem addCPU_ok (m : Ledger) (name : String) (v : Int) (h : (m name).isSome = true) :
    ∃ m', m.addCPU name v = .ok m' ∧ ∀ k, (m' k).isSome = (m k).isSome := by
  unfold Ledger.addCPU
  cases hm : m name with
  | none => rw [hm] at h; cases h
  | some ru =>
    refine ⟨_, rfl, fun k => ?_⟩
    unfold Ledger.insert
    by_cases hk : k = name
    · simp [hk, hm]
    · simp [hk]

theorem addMEMORY_ok (m : Ledger) (name : String) (v : Int) (h : (m name).isSome = true) :
    ∃ m', m.addMEMORY name v = .ok m' ∧ ∀ k, (m' k).isSome = (m k).isSome := by
  unfold Ledger.addMEMORY
  cases hm : m name with
  | none => rw [hm] at h; cases h
  | some ru =>
    refine ⟨_, rfl, fun k => ?_⟩
    unfold Ledger.insert
    by_cases hk : k = name
    · simp [hk, hm]
    · simp [hk]

theorem priceUsageContainer_ok (name : String) (m : Ledger) (c : Container)
    (h : (m name).isSome = true) :
    ∃ m', priceUsageContainer name m c = .ok m' ∧ ∀ k, (m' k).isSome = (m k).isSome := by
  unfold priceUsageContainer
  have h1 : ∃ m1, (if hasSuffix c.Resources.Requests.cpu "m" = true then
        m.addCPU name (Atoi (trimSuffix c.Resources.Requests.cpu "m")).1 else .ok m) = .ok m1 ∧
      ∀ k, (m1 k).isSome = (m k).isSome := by
    split
    · exact addCPU_ok m name _ h
    · exact ⟨m, rfl, fun _ => rfl⟩
  obtain ⟨m1, hm1, hd1⟩ := h1
  simp only [hm1]
  have h' : (m1 name).isSome = true := by rw [hd1]; exact h
  split
  · obtain ⟨m2, hm2, hd2⟩ := addMEMORY_ok m1 name (Atoi (trimSuffix c.Resources.Requests.memory "Mi")).1 h'
    exact ⟨m2, hm2, fun k => by rw [hd2, hd1]⟩
  · split
    · obtain ⟨m2, hm2, hd2⟩ := addMEMORY_ok m1 name
        (mulInt (Atoi (trimSuffix c.Resources.Requests.memory "Gi")).1 1024) h'
      exact ⟨m2, hm2, fun k => by rw [hd2, hd1]⟩
    · exact ⟨m1, rfl, hd1⟩

theorem priceUsageContainers_ok (name : String) (cs : List Container) (m : Ledger)
    (h : (m name).isSome = true) :
    ∃ m', priceUsageContainers name cs m = .ok m' ∧ ∀ k, (m' k).isSome = (m k).isSome := by
  induction cs generalizing m with
  | nil => exact ⟨m, rfl, fun _ => rfl⟩
  | cons c cs ih =>
    obtain ⟨m1, hm1, hd1⟩ := priceUsageContainer_ok name m c h
    obtain ⟨m2, hm2, hd2⟩ := ih m1 (by rw [hd1]; exact h)
    refine ⟨m2, ?_, fun k => by rw [hd2, hd1]⟩
    rw [priceUsageContainers, hm1]
    exact hm2

theorem priceUsagePods_ok (ps : List Pod) (m : Ledger)
    (h : ∀ p ∈ ps, p.Spec.NodeName ≠ "" → (m p.Spec.NodeName).isSome = true) :
    ∃ m', priceUsagePods ps m = .ok m' ∧ ∀ k, (m' k).isSome = (m k).isSome := by
  induction ps generalizing m with
  | nil => exact ⟨m, rfl, fun _ => rfl⟩
  | cons p ps ih =>
    rw [priceUsagePods]
    by_cases hp : p.Spec.NodeName = ""
    · rw [if_pos hp]
      exact ih m (fun q hq => h q (List.mem_cons_of_mem _ hq))
    · rw [if_neg hp]
      obtain ⟨m1, hm1, hd1⟩ :=
        priceUsageContainers_ok p.Spec.NodeName p.Spec.Containers m (h p (List.mem_cons_self _ _) hp)
      obtain ⟨m2, hm2, hd2⟩ := ih m1 (fun q hq hne => by
        rw [hd1]; exact h q (List.mem_cons_of_mem _ hq) hne)
      refine ⟨m2, ?_, fun k => by rw [hd2, hd1]⟩
      rw [hm1]
      exact hm2

/-- Under snapshot consistency the ledger of `bestPrice` is built without a
nil dereference and holds an accumulator exactly for the names of the nodes. -/
theorem priceLedger_ok (nodeList : List Node) (podList : List Pod)
    (h : ∀ p ∈ podList, p.Spec.NodeName ≠ "" → ∃ n ∈ nodeList, n.Metadata.Name = p.Spec.NodeName) :
    ∃ L, priceLedger nodeList podList = .ok L ∧
      ∀ k, (L k).isSome = true ↔ ∃ n ∈ nodeList, n.Metadata.Name = k := by
  unfold priceLedger
  obtain ⟨L, hL, hd⟩ := priceUsagePods_ok podList (newLedger nodeList Ledger.empty) (fun p hp hne => by
    rw [newLedger_isSome]
    exact Or.inl (h p hp hne))
  refine ⟨L, hL, fun k => ?_⟩
  rw [hd, newLedger_isSome]
  simp [Ledger.empty]

theorem priceFree_ok (plat : Platform) (L : Ledger) (node : Node)
    (h : (L node.Metadata.Name).isSome = true) :
    ∃ free, priceFree plat L node = .ok free ∧ nodePrice plat L node = price free := by
  unfold nodePrice priceFree
  cases hm : L node.Metadata.Name with
  | none => rw [hm] at h; cases h
  | some ru => exact ⟨_, rfl, rfl⟩

/-- The loop of `bestPrice` from a state in which a best node is known: the
final best node is the old one, or a later node with a strictly greater score
and no earlier node of the rest reaching that score. -/
theorem priceScan_some (plat : Platform) (L : Ledger) (nodes acc : List Node) (b0 : NodePrice)
    (h : ∀ n ∈ nodes, (L n.Metadata.Name).isSome = true) :
    ∃ b, priceScan plat L nodes acc (some b0) = .ok (acc ++ nodes, some b) ∧
      b0.Price ≤ b.Price ∧ (∀ n ∈ nodes, nodePrice plat L n ≤ b.Price) ∧
      (b = b0 ∨ ∃ pre post, nodes = pre ++ b.Node :: post ∧ b.Price = nodePrice plat L b.Node ∧
        (∀ n ∈ pre, nodePrice plat L n < b.Price) ∧ b0.Price < b.Price) := by
  induction nodes generalizing acc b0 with
  | nil => exact ⟨b0, by simp [priceScan], le_refl _, by simp, Or.inl rfl⟩
  | cons node rest ih =>
    obtain ⟨free, hf, hp⟩ := priceFree_ok plat L node (h node (List.mem_cons_self _ _))
    have hrest : ∀ n ∈ rest, (L n.Metadata.Name).isSome = true :=
      fun n hn => h n (List.mem_cons_of_mem _ hn)
    rw [priceScan, hf]
    simp only
    by_cases hgt : price free > b0.Price
    · rw [if_pos hgt]
      obtain ⟨b, hb, hle, hall, hcase⟩ := ih (acc ++ [node]) ⟨node, price free⟩ hrest
      refine ⟨b, by simpa using hb, ?_, ?_, ?_⟩
      · simp only at hle; omega
      · intro n hn
        rcases List.mem_cons.mp hn with rfl | hn
        · rw [hp]; exact hle
        · exact hall n hn
      · right
        rcases hcase with rfl | ⟨pre, post, h1, h2, h3, h4⟩
        · exact ⟨[], rest, rfl, hp.symm, by simp, hgt⟩
        · refine ⟨node :: pre, post, by simp [h1], h2, ?_, ?_⟩
          · intro n hn
            rcases List.mem_cons.mp hn with rfl | hn
            · rw [hp]; exact h4
            · exact h3 n hn
          · simp only at h4; omega
    · rw [if_neg hgt]
      obtain ⟨b, hb, hle, hall, hcase⟩ := ih (acc ++ [node]) b0 hrest
      refine ⟨b, by simpa using hb, hle, ?_, ?_⟩
      · intro n hn
        rcases List.mem_cons.mp hn with rfl | hn
        · rw [hp]; omega
        · exact hall n hn
      · rcases hcase with rfl | ⟨pre, post, h1, h2, h3, h4⟩
        · exact Or.inl rfl
        · right
          refine ⟨node :: pre, post, by simp [h1], h2, ?_, h4⟩
          intro n hn
          rcases List.mem_cons.mp hn with rfl | hn
          · rw [hp]; omega
          · exact h3 n hn

/-- The loop of `bestPrice` on a non-empty node list: it ends with the first
node of greatest score. -/
theorem priceScan_none (plat : Platform) (L : Ledger) (node : Node) (rest acc : List Node)
    (h : ∀ n ∈ node :: rest, (L n.Metadata.Name).isSome = true) :
    ∃ pre N post, node :: rest = pre ++ N :: post ∧
      priceScan plat L (node :: rest) acc none =
        .ok (acc ++ node :: rest, some ⟨N, nodePrice plat L N⟩) ∧
      (∀ n ∈ node :: rest, nodePrice plat L n ≤ nodePrice plat L N) ∧
      (∀ n ∈ pre, nodePrice plat L n < nodePrice plat L N) := by
  obtain ⟨free, hf, hp⟩ := priceFree_ok plat L node (h node (List.mem_cons_self _ _))
  obtain ⟨b, hb, hle, hall, hcase⟩ := priceScan_some plat L rest (acc ++ [node]) ⟨node, price free⟩
    (fun n hn => h n (List.mem_cons_of_mem _ hn))
  rw [priceScan, hf]
  simp only
  rcases hcase with rfl | ⟨pre, post, h1, h2, h3, h4⟩
  · refine ⟨[], node, rest, rfl, ?_, ?_, by simp⟩
    · rw [hp]; simpa using hb
    · intro n hn
      rcases List.mem_cons.mp hn with rfl | hn
      · exact le_refl _
      · rw [hp]; exact hall n hn
  · have hbeq : b = ⟨b.Node, nodePrice plat L b.Node⟩ := by
      cases b
      simp only at h2
      simp [h2]
    refine ⟨node :: pre, b.Node, post, by simp [h1], ?_, ?_, ?_⟩
    · rw [← hbeq]; simpa using hb
    · intro n hn
      rcases List.mem_cons.mp hn with rfl | hn
      · rw [hp, ← h2]; exact hle
      · rw [← h2]; exact hall n hn
    · intro n hn
      rcases List.mem_cons.mp hn with rfl | hn
      · rw [hp, ← h2]; exact h4
      · rw [← h2]; exact h3 n hn

set_option maxRecDepth 100000 in
/-- C7, as stated, fails: in the list `[node-x, node-y]` the free capacities
are (999, 1) and (1000, 1); `bestPrice` returns `node-x` although the
arithmetic mean of `node-y`, 500.5, is strictly greater than that of
`node-x`, 500. And with a pod bound to a node that is not in the fetched list
`bestPrice` does not return: it dereferences a nil accumulator. -/
theorem bestPrice_not_greatest_mean :
    (bestPrice amd64 clusterXY [] = .ok nodeX ∧
      bestPriceFree amd64 [nodeX, nodeY] [] nodeX = .ok (999, 1) ∧
      bestPriceFree amd64 [nodeX, nodeY] [] nodeY = .ok (1000, 1) ∧
      arithmeticMean (999, 1) < arithmeticMean (1000, 1)) ∧
    bestPrice amd64 clusterStale [] = .error nilDeref :=
  ⟨⟨by decide, by decide, by decide, by norm_num [arithmeticMean]⟩, by decide⟩

/-- C8, as stated, fails: with an empty fetched node list and the argument
`[NodeB]`, `bestPrice` returns `NodeB` and a nil error; and when the snapshot
has a bound pod it returns nothing, the nil accumulator being dereferenced. -/
theorem bestPrice_empty_returns_argument :
    bestPrice amd64 clusterEmpty [nodeB] = .ok nodeB ∧
      bestPrice amd64 clusterEmptyStale [nodeB] = .error nilDeref := by
  decide

/-- C8, amended. When the fetched node list is empty and no pod of the
snapshot is bound, `bestPrice` called with a non-empty argument returns the
first node of its argument and a nil error; for no argument does it return a
non-nil error. -/
theorem bestPrice_empty_fallback (plat : Platform) (cl : Cluster) (node : Node)
    (rest : List Node) (podList : List Pod)
    (hn : cl.getNodes = .ok []) (hp : cl.getPods = .ok podList)
    (hc : ∀ p ∈ podList, p.Spec.NodeName = "") :
    bestPrice plat cl (node :: rest) = .ok node ∧
      ∀ nodes e, bestPrice plat cl nodes ≠ .error (.error e) := by
  obtain ⟨L, hL, -⟩ := priceLedger_ok [] podList (fun p hp hne => absurd (hc p hp) hne)
  constructor
  · unfold bestPrice bestNodePrice
    simp only [hn, hp, hL, priceScan]
  · intro nodes e
    unfold bestPrice bestNodePrice
    simp only [hn, hp, hL, priceScan]
    cases nodes with
    | nil => simp [indexOutOfRange]
    | cons n ns => simp

theorem bestPrice_empty_fallback_witness :
    clusterEmpty.getNodes = .ok [] ∧ clusterEmpty.getPods = .ok [] ∧
    (∀ p ∈ ([] : List Pod), p.Spec.NodeName = "") ∧
    (bestPrice amd64 clusterEmpty (nodeA :: [nodeB]) = .ok nodeA ∧
      ∀ nodes e, bestPrice amd64 clusterEmpty nodes ≠ .error (.error e)) :=
  ⟨rfl, rfl, by decide,
    bestPrice_empty_fallback amd64 clusterEmpty nodeA [nodeB] [] rfl rfl (by decide)⟩

set_option maxRecDepth 100000 in
/-- C9, as stated, fails for both selectors: `node-1` has 1000m CPU and a bound
pod that requests 2000m, so its free CPU is -1000; `bestPrice` returns it, and
`fit` returns it for a group whose CPU demand is -1500. -/
theorem negative_free_capacity_is_returned :
    (bestPrice amd64 clusterOver [] = .ok node1 ∧
      bestPriceFree amd64 [node1] [boundBig] node1 = .ok (-1000, 1024000)) ∧
    ((fit amd64 clusterOver [unitNeg]).map (fun r => r.nodes) = .ok [node1] ∧
      fitDemand amd64 [unitNeg] = .ok (-1500, 0) ∧
      fitFree amd64 [node1] [boundBig] node1 = .ok (-1000, 1024)) := by
  decide

/-- C9, amended. A node returned by `fit` has free CPU at least 0 and free
memory at least 0 whenever the aggregate CPU and memory demands of the group
are not negative. (`bestPrice` makes no test of the free capacity.) -/
theorem fit_free_nonneg (plat : Platform) (cl : Cluster) (pods : List Pod) (r : FitResult)
    (N : Node) (d : Int × Int) (h : fit plat cl pods = .ok r) (hN : N ∈ r.nodes)
    (hd : fitDemand plat pods = .ok d) (hcpu : 0 ≤ d.1) (hmem : 0 ≤ d.2) :
    ∃ nodeList podList free, cl.getNodes = .ok nodeList ∧ cl.getPods = .ok podList ∧
      fitFree plat nodeList podList N = .ok free ∧ 0 ≤ free.1 ∧ 0 ≤ free.2 := by
  obtain ⟨nodeList, podList, L, d', s, hn, hp, hL, hd', hs, hnodes, -⟩ :=
    fit_ok_steps plat cl pods r h
  rw [hd] at hd'
  cases hd'
  rcases scanNodes_ok plat L cl.bindErr pods d.1 d.2 nodeList [] [] s hs with
    ⟨h1, -, -, -⟩ | ⟨pre, M, post, -, h2, -, -, ⟨c, hc, hc1, hc2⟩, -⟩
  · rw [hnodes, h1] at hN
    cases hN
  · rw [hnodes, h2] at hN
    have hNM : N = M := by simpa using hN
    subst hNM
    refine ⟨nodeList, podList, (c.freeSpace, c.freeMemory), hn, hp, ?_, ?_, ?_⟩
    · unfold fitFree
      simp only [hL, hc]
    · simp only; omega
    · simp only; omega

theorem fit_free_nonneg_witness :
    fit amd64 clusterAB [unitA] = .ok resultAB ∧ nodeA ∈ resultAB.nodes ∧
    fitDemand amd64 [unitA] = .ok (500, 1024) ∧ (0 : Int) ≤ (500, 1024).1 ∧
    (0 : Int) ≤ ((500, 1024) : Int × Int).2 ∧
    ∃ nodeList podList free, clusterAB.getNodes = .ok nodeList ∧
      clusterAB.getPods = .ok podList ∧
      fitFree amd64 nodeList podList nodeA = .ok free ∧ 0 ≤ free.1 ∧ 0 ≤ free.2 :=
  ⟨by decide, by decide, by decide, by decide, by decide,
    fit_free_nonneg amd64 clusterAB [unitA] resultAB nodeA (500, 1024) (by decide) (by decide)
      (by decide) (by decide) (by decide)⟩

/-! ### The ledger of `fit` holds the sums of the converted requests -/

theorem wrap64_idem (x : Int) : wrap64 (wrap64 x) = wrap64 x := by
  unfold wrap64
  omega

theorem wrap64_add_left (a b : Int) : wrap64 (wrap64 a + b) = wrap64 (a + b) := by
  unfold wrap64
  omega

theorem Adds.inRange {m m1 : Ledger} {dc dm : String → Int} (h : Ledger.Adds m m1 dc dm) :
    m1.InRange := by
  intro k ru hk
  rw [h k] at hk
  cases hm : m k with
  | none => rw [hm] at hk; cases hk
  | some r0 =>
    rw [hm] at hk
    simp only [Option.map_some', Option.some.injEq] at hk
    subst hk
    exact ⟨wrap64_idem _, wrap64_idem _⟩

theorem Adds.isSome {m m1 : Ledger} {dc dm : String → Int} (h : Ledger.Adds m m1 dc dm)
    (k : String) : (m1 k).isSome = (m k).isSome := by
  rw [h k]
  cases m k <;> rfl

theorem Adds.refl {m : Ledger} (h : m.InRange) : Ledger.Adds m m (fun _ => 0) (fun _ => 0) := by
  intro k
  cases hm : m k with
  | none => rfl
  | some ru =>
    obtain ⟨h1, h2⟩ := h k ru hm
    simp [h1, h2]

theorem Adds.trans {m m1 m2 : Ledger} {dc dm dc' dm' : String → Int}
    (h1 : Ledger.Adds m m1 dc dm) (h2 : Ledger.Adds m1 m2 dc' dm') :
    Ledger.Adds m m2 (fun k => dc k + dc' k) (fun k => dm k + dm' k) := by
  intro k
  rw [h2 k, h1 k]
  cases m k with
  | none => rfl
  | some ru => simp [wrap64_add_left, add_assoc]

theorem Adds.congr {m m1 : Ledger} {dc dm dc' dm' : String → Int}
    (h : Ledger.Adds m m1 dc dm) (hc : ∀ k, dc k = dc' k) (hm : ∀ k, dm k = dm' k) :
    Ledger.Adds m m1 dc' dm' := by
  intro k
  rw [h k, hc k, hm k]

theorem addCPU_adds (m m1 : Ledger) (name : String) (v : Int) (hr : m.InRange)
    (h : m.addCPU name v = .ok m1) :
    (m name).isSome = true ∧
      Ledger.Adds m m1 (fun k => if k = name then v else 0) (fun _ => 0) := by
  unfold Ledger.addCPU at h
  cases hm : m name with
  | none => rw [hm] at h; cases h
  | some ru =>
    rw [hm] at h
    simp only [Except.ok.injEq] at h
    subst h
    refine ⟨rfl, fun k => ?_⟩
    unfold Ledger.insert
    by_cases hk : k = name
    · subst hk
      obtain ⟨-, h2⟩ := hr k ru hm
      simp [hm, addInt, h2]
    · cases hmk : m k with
      | none => simp [hk, hmk]
      | some r =>
        obtain ⟨h1, h2⟩ := hr k r hmk
        simp [hk, hmk, h1, h2]

theorem addMEMORY_adds (m m1 : Ledger) (name : String) (v : Int) (hr : m.InRange)
    (h : m.addMEMORY name v = .ok m1) :
    (m name).isSome = true ∧
      Ledger.Adds m m1 (fun _ => 0) (fun k => if k = name then v else 0) := by
  unfold Ledger.addMEMORY at h
  cases hm : m name with
  | none => rw [hm] at h; cases h
  | some ru =>
    rw [hm] at h
    simp only [Except.ok.injEq] at h
    subst h
    refine ⟨rfl, fun k => ?_⟩
    unfold Ledger.insert
    by_cases hk : k = name
    · subst hk
      obtain ⟨h1, -⟩ := hr k ru hm
      simp [hm, addInt, h1]
    · cases hmk : m k with
      | none => simp [hk, hmk]
      | some r =>
        obtain ⟨h1, h2⟩ := hr k r hmk
        simp [hk, hmk, h1, h2]

theorem usageContainer_adds (plat : Platform) (name : String) (m m1 : Ledger) (c : Container)
    (hr : m.InRange) (h : usageContainer plat name m c = .ok m1) :
    ((∃ v, fitCPU plat c.Resources.Requests.cpu = .ok v) ∧
      (∃ o, usageMemory c.Resources.Requests.memory = .ok o) ∧ (m name).isSome = true) ∧
    Ledger.Adds m m1 (fun k => if k = name then cpuOf plat c else 0)
      (fun k => if k = name then memoryOf c else 0) := by
  unfold usageContainer at h
  cases hcpu : fitCPU plat c.Resources.Requests.cpu with
  | error f => rw [hcpu] at h; cases h
  | ok cores =>
    rw [hcpu] at h
    simp only at h
    cases hadd : m.addCPU name cores with
    | error f => rw [hadd] at h; cases h
    | ok m' =>
      rw [hadd] at h
      simp only at h
      obtain ⟨hsome, hA⟩ := addCPU_adds m m' name cores hr hadd
      have hcpuOf : cpuOf plat c = cores := by unfold cpuOf; rw [hcpu]
      cases hmem : usageMemory c.Resources.Requests.memory with
      | error f => rw [hmem] at h; cases h
      | ok o =>
        rw [hmem] at h
        refine ⟨⟨⟨cores, rfl⟩, ⟨o, rfl⟩, hsome⟩, ?_⟩
        cases o with
        | none =>
          simp only [Except.ok.injEq] at h
          subst h
          have hmemOf : memoryOf c = 0 := by unfold memoryOf; rw [hmem]
          exact Adds.congr hA (fun k => by rw [hcpuOf]) (fun k => by simp [hmemOf])
        | some memory =>
          simp only at h
          obtain ⟨-, hB⟩ := addMEMORY_adds m' m1 name memory (Adds.inRange hA) h
          have hmemOf : memoryOf c = memory := by unfold memoryOf; rw [hmem]
          exact Adds.congr (Adds.trans hA hB) (fun k => by simp [hcpuOf]) (fun k => by simp [hmemOf])

theorem usageContainer_ok (plat : Platform) (name : String) (m : Ledger) (c : Container)
    (hcpu : ∃ v, fitCPU plat c.Resources.Requests.cpu = .ok v)
    (hmem : ∃ o, usageMemory c.Resources.Requests.memory = .ok o)
    (hsome : (m name).isSome = true) :
    ∃ m1, usageContainer plat name m c = .ok m1 ∧ ∀ k, (m1 k).isSome = (m k).isSome := by
  obtain ⟨v, hv⟩ := hcpu
  obtain ⟨o, ho⟩ := hmem
  obtain ⟨m', hm', hd'⟩ := addCPU_ok m name v hsome
  unfold usageContainer
  rw [hv]
  simp only [hm', ho]
  cases o with
  | none => exact ⟨m', rfl, hd'⟩
  | some memory =>
    obtain ⟨m2, hm2, hd2⟩ := addMEMORY_ok m' name memory (by rw [hd']; exact hsome)
    exact ⟨m2, hm2, fun k => by rw [hd2, hd']⟩

theorem usageContainers_adds (plat : Platform) (name : String) (cs : List Container)
    (m m1 : Ledger) (hr : m.InRange) (h : usageContainers plat name cs m = .ok m1) :
    (∀ c ∈ cs, (∃ v, fitCPU plat c.Resources.Requests.cpu = .ok v) ∧
      (∃ o, usageMemory c.Resources.Requests.memory = .ok o) ∧ (m name).isSome = true) ∧
    Ledger.Adds m m1 (fun k => if k = name then containersCPU plat cs else 0)
      (fun k => if k = name then containersMemory cs else 0) := by
  induction cs generalizing m with
  | nil =>
    simp only [usageContainers, Except.ok.injEq] at h
    subst h
    exact ⟨by simp, Adds.congr (Adds.refl hr) (fun k => by simp [containersCPU])
      (fun k => by simp [containersMemory])⟩
  | cons c cs ih =>
    rw [usageContainers] at h
    cases hc : usageContainer plat name m c with
    | error f => rw [hc] at h; cases h
    | ok m' =>
      rw [hc] at h
      simp only at h
      obtain ⟨hcond, hA⟩ := usageContainer_adds plat name m m' c hr hc
      obtain ⟨hconds, hB⟩ := ih m' (Adds.inRange hA) h
      constructor
      · intro c' hc'
        rcases List.mem_cons.mp hc' with rfl | hc'
        · exact hcond
        · obtain ⟨a, b, d⟩ := hconds c' hc'
          exact ⟨a, b, by rw [← Adds.isSome hA]; exact d⟩
      · refine Adds.congr (Adds.trans hA hB) (fun k => ?_) (fun k => ?_)
        · by_cases hk : k = name <;> simp [hk, containersCPU]
        · by_cases hk : k = name <;> simp [hk, containersMemory]

theorem usageContainers_ok (plat : Platform) (name : String) (cs : List Container) (m : Ledger)
    (h : ∀ c ∈ cs, (∃ v, fitCPU plat c.Resources.Requests.cpu = .ok v) ∧
      (∃ o, usageMemory c.Resources.Requests.memory = .ok o) ∧ (m name).isSome = true) :
    ∃ m1, usageContainers plat name cs m = .ok m1 ∧ ∀ k, (m1 k).isSome = (m k).isSome := by
  induction cs generalizing m with
  | nil => exact ⟨m, rfl, fun _ => rfl⟩
  | cons c cs ih =>
    obtain ⟨a, b, d⟩ := h c (List.mem_cons_self _ _)
    obtain ⟨m', hm', hd'⟩ := usageContainer_ok plat name m c a b d
    obtain ⟨m2, hm2, hd2⟩ := ih m' (fun c' hc' => by
      obtain ⟨a', b', d'⟩ := h c' (List.mem_cons_of_mem _ hc')
      exact ⟨a', b', by rw [hd']; exact d'⟩)
    refine ⟨m2, ?_, fun k => by rw [hd2, hd']⟩
    rw [usageContainers, hm']
    exact hm2

theorem usagePods_adds (plat : Platform) (ps : List Pod) (m L : Ledger) (hr : m.InRange)
    (h : usagePods plat ps m = .ok L) :
    Ledger.Accepts plat m ps ∧
      Ledger.Adds m L (fun k => usedCPU plat k ps) (fun k => usedMemory k ps) := by
  induction ps generalizing m with
  | nil =>
    simp only [usagePods, Except.ok.injEq] at h
    subst h
    exact ⟨fun p hp => (by cases hp), Adds.congr (Adds.refl hr) (fun k => by simp [usedCPU])
      (fun k => by simp [usedMemory])⟩
  | cons p ps ih =>
    rw [usagePods] at h
    by_cases hp : p.Spec.NodeName = ""
    · rw [if_pos hp] at h
      obtain ⟨hacc, hA⟩ := ih m hr h
      constructor
      · intro q hq hne
        rcases List.mem_cons.mp hq with rfl | hq
        · exact absurd hp hne
        · exact hacc q hq hne
      · exact Adds.congr hA (fun k => by simp [usedCPU, hp]) (fun k => by simp [usedMemory, hp])
    · rw [if_neg hp] at h
      cases hc : usageContainers plat p.Spec.NodeName p.Spec.Containers m with
      | error f => rw [hc] at h; cases h
      | ok m' =>
        rw [hc] at h
        simp only at h
        obtain ⟨hconds, hA⟩ := usageContainers_adds plat _ _ m m' hr hc
        obtain ⟨hacc, hB⟩ := ih m' (Adds.inRange hA) h
        constructor
        · intro q hq hne
          rcases List.mem_cons.mp hq with rfl | hq
          · exact hconds
          · intro c hcq
            obtain ⟨a, b, d⟩ := hacc q hq hne c hcq
            exact ⟨a, b, by rw [← Adds.isSome hA]; exact d⟩
        · refine Adds.congr (Adds.trans hA hB) (fun k => ?_) (fun k => ?_)
          · by_cases hk : k = p.Spec.NodeName
            · simp [hk, usedCPU, hp]
            · have hk' : ¬ p.Spec.NodeName = k := fun e => hk e.symm
              simp [hk, hk', usedCPU]
          · by_cases hk : k = p.Spec.NodeName
            · simp [hk, usedMemory, hp]
            · have hk' : ¬ p.Spec.NodeName = k := fun e => hk e.symm
              simp [hk, hk', usedMemory]

theorem usagePods_ok (plat : Platform) (ps : List Pod) (m : Ledger)
    (h : Ledger.Accepts plat m ps) : ∃ L, usagePods plat ps m = .ok L := by
  induction ps generalizing m with
  | nil => exact ⟨m, rfl⟩
  | cons p ps ih =>
    rw [usagePods]
    by_cases hp : p.Spec.NodeName = ""
    · rw [if_pos hp]
      exact ih m (fun q hq => h q (List.mem_cons_of_mem _ hq))
    · rw [if_neg hp]
      obtain ⟨m', hm', hd'⟩ := usageContainers_ok plat p.Spec.NodeName p.Spec.Containers m
        (h p (List.mem_cons_self _ _) hp)
      rw [hm']
      exact ih m' (fun q hq hne c hc => by
        obtain ⟨a, b, d⟩ := h q (List.mem_cons_of_mem _ hq) hne c hc
        exact ⟨a, b, by rw [hd']; exact d⟩)

theorem newLedger_apply (nodes : List Node) (m : Ledger) (k : String) :
    newLedger nodes m k =
      if ∃ n ∈ nodes, n.Metadata.Name = k then some ⟨0, 0⟩ else m k := by
  induction nodes generalizing m with
  | nil => simp [newLedger]
  | cons node rest ih =>
    rw [newLedger, ih]
    by_cases hrest : ∃ n ∈ rest, n.Metadata.Name = k
    · have : ∃ n ∈ node :: rest, n.Metadata.Name = k := by
        obtain ⟨n, hn, hk⟩ := hrest
        exact ⟨n, List.mem_cons_of_mem _ hn, hk⟩
      rw [if_pos hrest, if_pos this]
    · rw [if_neg hrest]
      unfold Ledger.insert
      by_cases hk : k = node.Metadata.Name
      · have : ∃ n ∈ node :: rest, n.Metadata.Name = k := ⟨node, List.mem_cons_self _ _, hk.symm⟩
        rw [if_pos hk, if_pos this]
      · have : ¬ ∃ n ∈ node :: rest, n.Metadata.Name = k := by
          rintro ⟨n, hn, hnk⟩
          rcases List.mem_cons.mp hn with rfl | hn
          · exact hk hnk.symm
          · exact hrest ⟨n, hn, hnk⟩
        rw [if_neg hk, if_neg this]

theorem newLedger_inRange (nodes : List Node) : (newLedger nodes Ledger.empty).InRange := by
  intro k ru hk
  rw [newLedger_apply] at hk
  split at hk
  · simp only [Option.some.injEq] at hk
    subst hk
    exact ⟨by decide, by decide⟩
  · cases hk

theorem usedCPU_perm (plat : Platform) (name : String) {ps ps' : List Pod} (h : ps.Perm ps') :
    usedCPU plat name ps = usedCPU plat name ps' := by
  induction h with
  | nil => rfl
  | cons p _ ih => simp [usedCPU, ih]
  | swap p q l => simp only [usedCPU]; omega
  | trans _ _ ih1 ih2 => rw [ih1, ih2]

theorem usedMemory_perm (name : String) {ps ps' : List Pod} (h : ps.Perm ps') :
    usedMemory name ps = usedMemory name ps' := by
  induction h with
  | nil => rfl
  | cons p _ ih => simp [usedMemory, ih]
  | swap p q l => simp only [usedMemory]; omega
  | trans _ _ ih1 ih2 => rw [ih1, ih2]

/-- Additivity of the ledger of `fit` in terms of the conversions `fit` itself
applies: for a node of the list the accumulator holds the sums, reduced to
`int`, of `cpuOf` and `memoryOf` over all containers of all pods bound to it;
for any other name there is no accumulator. -/
theorem fitLedger_sums (plat : Platform) (nodeList : List Node) (podList : List Pod) (L : Ledger)
    (h : fitLedger plat nodeList podList = .ok L) (name : String) :
    L name =
      if ∃ n ∈ nodeList, n.Metadata.Name = name then
        some ⟨wrap64 (usedCPU plat name podList), wrap64 (usedMemory name podList)⟩
      else none := by
  unfold fitLedger at h
  obtain ⟨-, hA⟩ := usagePods_adds plat podList _ L (newLedger_inRange nodeList) h
  rw [hA name, newLedger_apply]
  split
  · simp
  · rfl

/-- A pod with an empty `NodeName` contributes nothing to the ledger of `fit`. -/
theorem fitLedger_skips_unbound (plat : Platform) (nodeList : List Node) (podList : List Pod)
    (p : Pod) (hp : p.Spec.NodeName = "") :
    fitLedger plat nodeList (p :: podList) = fitLedger plat nodeList podList := by
  unfold fitLedger
  rw [usagePods, if_pos hp]

/-- The ledger of `fit` is the same for every reordering of the pod list. -/
theorem fitLedger_perm (plat : Platform) (nodeList : List Node) (podList podList' : List Pod)
    (L : Ledger) (hperm : podList.Perm podList')
    (h : fitLedger plat nodeList podList = .ok L) :
    fitLedger plat nodeList podList' = .ok L := by
  have h0 := h
  unfold fitLedger at h0
  obtain ⟨hacc, -⟩ := usagePods_adds plat podList _ L (newLedger_inRange nodeList) h0
  have hacc' : Ledger.Accepts plat (newLedger nodeList Ledger.empty) podList' :=
    fun p hp => hacc p (hperm.mem_iff.mpr hp)
  obtain ⟨L', hL'⟩ := usagePods_ok plat podList' _ hacc'
  have hL'' : fitLedger plat nodeList podList' = .ok L' := hL'
  rw [hL'']
  congr 1
  funext name
  rw [fitLedger_sums plat nodeList podList' L' hL'' name, fitLedger_sums plat nodeList podList L h name,
    usedCPU_perm plat name hperm, usedMemory_perm name hperm]

theorem demandContainers_ok (plat : Platform) (cs : List Container) (acc d : Int × Int)
    (h : demandContainers plat cs acc = .ok d) :
    ∀ c ∈ cs, (∃ v, fitCPU plat c.Resources.Requests.cpu = .ok v) ∧
      (∃ v, demandMemory plat c.Resources.Requests.memory = .ok v) := by
  induction cs generalizing acc with
  | nil => simp
  | cons c cs ih =>
    rw [demandContainers] at h
    cases hc : demandContainer plat acc c with
    | error f => rw [hc] at h; cases h
    | ok acc1 =>
      rw [hc] at h
      intro c' hc'
      rcases List.mem_cons.mp hc' with rfl | hc'
      · unfold demandContainer at hc
        cases hcpu : fitCPU plat c'.Resources.Requests.cpu with
        | error f => rw [hcpu] at hc; cases hc
        | ok v =>
          cases hmem : demandMemory plat c'.Resources.Requests.memory with
          | error f => rw [hcpu] at hc; simp only [hmem] at hc; cases hc
          | ok w => exact ⟨⟨v, rfl⟩, ⟨w, rfl⟩⟩
      · exact ih acc1 h c' hc'

theorem demandPods_ok (plat : Platform) (pods : List Pod) (acc d : Int × Int)
    (h : demandPods plat pods acc = .ok d) :
    ∀ u ∈ pods, ∀ c ∈ u.Spec.Containers,
      (∃ v, fitCPU plat c.Resources.Requests.cpu = .ok v) ∧
      (∃ v, demandMemory plat c.Resources.Requests.memory = .ok v) := by
  induction pods generalizing acc with
  | nil => simp
  | cons u us ih =>
    rw [demandPods] at h
    cases hc : demandContainers plat u.Spec.Containers acc with
    | error f => rw [hc] at h; cases h
    | ok acc1 =>
      rw [hc] at h
      intro u' hu'
      rcases List.mem_cons.mp hu' with rfl | hu'
      · exact demandContainers_ok plat _ acc acc1 hc
      · exact ih acc1 h u' hu'

/-- The parse failures that `fit` does report: when `fit` returns without
error, every CPU request of a bound pod has converted, every memory request of
a bound pod has passed `usageMemory` (which skips a string not ending in `Mi` or
`Gi`), and every CPU and memory request of the group has converted. -/
theorem fit_ok_requests_convert (plat : Platform) (cl : Cluster) (pods : List Pod)
    (r : FitResult) (h : fit plat cl pods = .ok r) :
    ∃ podList, cl.getPods = .ok podList ∧
      (∀ p ∈ podList, p.Spec.NodeName ≠ "" → ∀ c ∈ p.Spec.Containers,
        (∃ v, fitCPU plat c.Resources.Requests.cpu = .ok v) ∧
        (∃ o, usageMemory c.Resources.Requests.memory = .ok o)) ∧
      (∀ u ∈ pods, ∀ c ∈ u.Spec.Containers,
        (∃ v, fitCPU plat c.Resources.Requests.cpu = .ok v) ∧
        (∃ v, demandMemory plat c.Resources.Requests.memory = .ok v)) := by
  obtain ⟨nodeList, podList, L, d, s, -, hp, hL, hd, -, -, -⟩ := fit_ok_steps plat cl pods r h
  refine ⟨podList, hp, ?_, demandPods_ok plat pods (0, 0) d hd⟩
  unfold fitLedger at hL
  obtain ⟨hacc, -⟩ := usagePods_adds plat podList _ L (newLedger_inRange nodeList) hL
  intro p hp' hne c hc
  obtain ⟨a, b, -⟩ := hacc p hp' hne c hc
  exact ⟨a, b⟩

/-! ### The failure event and the reasons it carries -/

theorem postedEvents_append (a b : List Effect) :
    postedEvents (a ++ b) = postedEvents a ++ postedEvents b := by
  induction a with
  | nil => rfl
  | cons x xs ih => cases x <;> simp [postedEvents, ih]

theorem postedEvents_bindAll (bindErr : Nat → Option String) (node : Node) (pods : List Pod)
    (i : Nat) : postedEvents (bindAll bindErr node pods i) = [] := by
  induction pods generalizing i with
  | nil => rfl
  | cons u us ih =>
    unfold bindAll
    cases bindErr i <;> simp [postedEvents, ih]

/-- The scan of the nodes posts no event. -/
theorem scanNodes_events (plat : Platform) (L : Ledger) (bindErr : Nat → Option String)
    (pods : List Pod) (dc dm : Int) (nodes : List Node) (ff : List String) (tr : List Effect)
    (r : ScanResult) (h : scanNodes plat L bindErr pods dc dm nodes ff tr = .ok r) :
    postedEvents r.trace = postedEvents tr := by
  induction nodes generalizing ff tr with
  | nil =>
    simp only [scanNodes, Except.ok.injEq] at h
    subst h
    rfl
  | cons node rest ih =>
    unfold scanNodes at h
    cases hc : nodeCapacity plat L node with
    | error f => rw [hc] at h; cases h
    | ok c =>
      rw [hc] at h
      simp only at h
      by_cases hlt : c.freeSpace < dc ∨ c.freeMemory < dm
      · rw [if_pos hlt] at h
        rw [ih _ _ h]
        simp [postedEvents_append, postedEvents]
      · rw [if_neg hlt] at h
        simp only [Except.ok.injEq] at h
        subst h
        simp [postedEvents_append, postedEvents, postedEvents_bindAll]

/-- The trace of a run of `fit` that returns without error: the trace of the
scan, followed by the failure event when no node was taken. -/
theorem fit_ok_trace (plat : Platform) (cl : Cluster) (pods : List Pod) (r : FitResult)
    (h : fit plat cl pods = .ok r) :
    ∃ nodeList podList L d s, cl.getNodes = .ok nodeList ∧ cl.getPods = .ok podList ∧
      fitLedger plat nodeList podList = .ok L ∧ fitDemand plat pods = .ok d ∧
      scanNodes plat L cl.bindErr pods d.1 d.2 nodeList [] [] = .ok s ∧
      r.nodes = s.nodes ∧
      r.trace = s.trace ++
        (if s.nodes.length = 0 then [Effect.postEvent (failedEvent Pod.zero s.fitFailures cl.now)]
          else []) := by
  unfold fit at h
  cases hn : cl.getNodes with
  | error e => rw [hn] at h; cases h
  | ok nodeList =>
    cases hp : cl.getPods with
    | error e => rw [hn, hp] at h; cases h
    | ok podList =>
      cases hL : fitLedger plat nodeList podList with
      | error f => rw [hn, hp] at h; simp only [hL] at h; cases h
      | ok L =>
        cases hd : fitDemand plat pods with
        | error f => rw [hn, hp] at h; simp only [hL, hd] at h; cases h
        | ok d =>
          cases hs : scanNodes plat L cl.bindErr pods d.1 d.2 nodeList [] [] with
          | error f => rw [hn, hp] at h; simp only [hL, hd, hs] at h; cases h
          | ok s =>
            rw [hn, hp] at h
            simp only [hL, hd, hs] at h
            refine ⟨nodeList, podList, L, d, s, rfl, rfl, hL, rfl, hs, ?_⟩
            split at h
            · rename_i h0
              simp only [Except.ok.injEq] at h
              subst h
              simp [h0]
            · rename_i h0
              simp only [Except.ok.injEq] at h
              subst h
              simp [h0]

/-- C11. The failure notification is addressed at the first unit of the group:
in scenario B the group is the single unit `unit-b` with UID `uid-7`, no node
fits, and the one event `fit` posts has an empty name and an empty UID in its
`InvolvedObject` and no pod name in its message. -/
theorem fit_event_ignores_first_unit :
    (fit amd64 clusterB [unitB]).map (fun r => (postedEvents r.trace).map
        (fun e => (e.InvolvedObject.Name, e.InvolvedObject.Uid, e.Message))) =
      .ok [("", "", "pod () failed to fit in any node\nfit failure on node (node-b): Insufficient CPU")] ∧
    (unitB.Metadata.Name, unitB.Metadata.Uid) = ("unit-b", "uid-7") := by
  decide

/-- C12. Each rejection reason names the resource that caused the rejection:
`node-m` has 1000m CPU free against a demand of 500m and 256 memory units free
against a demand of 1024; `fit` rejects it and the reason recorded says
`Insufficient CPU`. -/
theorem fit_reason_cites_cpu_for_memory :
    fitFree amd64 [nodeM] [] nodeM = .ok (1000, 256) ∧
    fitDemand amd64 [unitM] = .ok (500, 1024) ∧
    (scanNodes amd64 (newLedger [nodeM] Ledger.empty) clusterM.bindErr [unitM] 500 1024
        [nodeM] [] []).map (fun s => (s.nodes, s.fitFailures)) =
      .ok ([], ["fit failure on node (node-m): Insufficient CPU"]) ∧
    (fit amd64 clusterM [unitM]).map (fun r => (postedEvents r.trace).map (fun e => e.Message)) =
      .ok ["pod () failed to fit in any node\nfit failure on node (node-m): Insufficient CPU"] := by
  decide

theorem intercalate_go_eq (sep : String) (b : String) (rest : List String) (acc : String) :
    String.intercalate.go acc sep (b :: rest) = acc ++ sep ++ joinStrings sep (b :: rest) := by
  induction rest generalizing acc b with
  | nil => rfl
  | cons c r ih =>
    rw [String.intercalate.go, ih, joinStrings]
    simp only [String.append_assoc]

/-- The function `joinStrings` is the library function `String.intercalate`:
the elements in order, the separator between every two neighbours. -/
theorem joinStrings_eq_intercalate (sep : String) (l : List String) :
    joinStrings sep l = String.intercalate sep l := by
  cases l with
  | nil => rfl
  | cons a rest =>
    cases rest with
    | nil => rfl
    | cons b r => rw [String.intercalate, intercalate_go_eq, joinStrings]

/-- C13. One reason per node considered: when `fit` returns without error and
returns no node, it posts exactly one event, whose message carries one reason
string for each node of the fetched list, in the order of the list, each
naming its node; the reasons are as many as the nodes. The message is the
line `pod () failed to fit in any node` followed by the reasons, one per line
(`String.intercalate` with the newline as the separator). -/
theorem fit_one_reason_per_node (plat : Platform) (cl : Cluster) (pods : List Pod)
    (r : FitResult) (h : fit plat cl pods = .ok r) (hnone : r.nodes = []) :
    ∃ nodeList reasons event, cl.getNodes = .ok nodeList ∧
      reasons = nodeList.map
        (fun n => "fit failure on node (" ++ n.Metadata.Name ++ "): Insufficient CPU") ∧
      reasons.length = nodeList.length ∧
      postedEvents r.trace = [event] ∧
      event = failedEvent Pod.zero reasons cl.now ∧
      event.Message = "pod () failed to fit in any node\n" ++ String.intercalate "\n" reasons := by
  obtain ⟨nodeList, podList, L, d, s, hn, hp, hL, hd, hs, hnodes, htrace⟩ :=
    fit_ok_trace plat cl pods r h
  have hev := scanNodes_events plat L cl.bindErr pods d.1 d.2 nodeList [] [] s hs
  have hs0 : s.nodes = [] := by rw [← hnodes]; exact hnone
  rcases scanNodes_ok plat L cl.bindErr pods d.1 d.2 nodeList [] [] s hs with
    ⟨-, h2, -, -⟩ | ⟨pre, M, post, -, h2, -, -, -, -⟩
  · refine ⟨nodeList, _, _, hn, rfl, by simp, ?_, rfl, ?_⟩
    · rw [htrace, postedEvents_append, hev, hs0, h2]
      simp [postedEvents, fitFailureMessage]
    · rw [← joinStrings_eq_intercalate]
      simp [failedEvent, Pod.zero]
  · rw [hs0] at h2
    cases h2

theorem fit_one_reason_per_node_witness :
    (fit amd64 clusterAB [unitBig] = .ok resultBig ∧ resultBig.nodes = []) ∧
    (∃ nodeList reasons event, clusterAB.getNodes = .ok nodeList ∧
      reasons = nodeList.map
        (fun n => "fit failure on node (" ++ n.Metadata.Name ++ "): Insufficient CPU") ∧
      reasons.length = nodeList.length ∧
      postedEvents resultBig.trace = [event] ∧
      event = failedEvent Pod.zero reasons clusterAB.now ∧
      event.Message =
        "pod () failed to fit in any node\n" ++ String.intercalate "\n" reasons) ∧
    (postedEvents resultBig.trace).map (fun e => e.Message) =
      ["pod () failed to fit in any node\nfit failure on node (NodeA): Insufficient CPU\nfit failure on node (NodeB): Insufficient CPU"] :=
  ⟨⟨by decide, by decide⟩,
    fit_one_reason_per_node amd64 clusterAB [unitBig] resultBig (by decide) (by decide),
    by decide⟩

/-- C16. Ki rule: for the string `16393292Ki`, `fit` takes 16393 as the
allocatable memory of a node (division by 1000) and 16393292 as the request of
a group container (no division), where division by 1024 gives 16009. -/
theorem fit_Ki_not_divided_by_1024 (plat : Platform) :
    allocatableMemory plat "16393292Ki" = .ok 16393 ∧
    demandMemory plat "16393292Ki" = .ok 16393292 ∧
    specNormalizeMemory "16393292Ki" = .ok 16009 :=
  ⟨rfl, rfl, by decide⟩

set_option maxRecDepth 100000 in
/-- C18. CPU rule: the string `0.7` is converted to 699 millicores, where 0.7
cores multiplied by 1000 is 700, and so it is as the request of a bound pod,
as the request of the group and as the allocatable CPU of a node; the strings
`250m`, `2` and `0.5` are converted to 250, 2000 and 500. -/
theorem fit_cpu_seven_tenths :
    (fitCPU amd64 "0.7" = .ok 699 ∧ specNormalizeCPU "0.7" = .ok 700) ∧
    (fitUsed amd64 [node1] [boundSeven] "node-1" = .ok (some ⟨699, 0⟩) ∧
      fitDemand amd64 [unitSeven] = .ok (699, 0) ∧
      nodeAllocatable amd64 nodeSeven = .ok (699, 1024)) ∧
    (fitCPU amd64 "250m" = .ok 250 ∧ fitCPU amd64 "2" = .ok 2000 ∧
      fitCPU amd64 "0.5" = .ok 500) := by
  decide

/-! ### No lookup of the ledger misses under snapshot consistency -/

theorem checked_error {α : Type} (r : α × Option NumError) (f : Fault)
    (h : checked r = .error f) : f.IsGoError := by
  unfold checked at h
  cases hr : r.2 with
  | none => rw [hr] at h; cases h
  | some e =>
    rw [hr] at h
    simp only [Except.error.injEq] at h
    exact ⟨_, h.symm⟩

theorem fitCPU_error (plat : Platform) (raw : String) (f : Fault)
    (h : fitCPU plat raw = .error f) : f.IsGoError := by
  unfold fitCPU at h
  split at h
  · exact checked_error _ f h
  · cases hc : checked (ParseFloat32 raw) with
    | error g =>
      rw [hc] at h
      simp only [Except.error.injEq] at h
      subst h
      exact checked_error _ g hc
    | ok v => rw [hc] at h; cases h

theorem usageMemory_error (raw : String) (f : Fault)
    (h : usageMemory raw = .error f) : f.IsGoError := by
  unfold usageMemory at h
  split at h
  · cases hc : checked (Atoi (trimSuffix raw "Mi")) with
    | error g =>
      rw [hc] at h
      simp only [Except.error.injEq] at h
      subst h
      exact checked_error _ g hc
    | ok v => rw [hc] at h; cases h
  · split at h
    · cases hc : checked (Atoi (trimSuffix raw "Gi")) with
      | error g =>
        rw [hc] at h
        simp only [Except.error.injEq] at h
        subst h
        exact checked_error _ g hc
      | ok v => rw [hc] at h; cases h
    · cases h

theorem demandMemory_error (plat : Platform) (raw : String) (f : Fault)
    (h : demandMemory plat raw = .error f) : f.IsGoError := by
  unfold demandMemory at h
  split at h
  · exact checked_error _ f h
  · split at h
    · cases hc : checked (ParseFloat32 (trimSuffix raw "Gi")) with
      | error g =>
        rw [hc] at h
        simp only [Except.error.injEq] at h
        subst h
        exact checked_error _ g hc
      | ok v => rw [hc] at h; cases h
    · exact checked_error _ f h

theorem allocatableMemory_error (plat : Platform) (raw : String) (f : Fault)
    (h : allocatableMemory plat raw = .error f) : f.IsGoError := by
  unfold allocatableMemory at h
  split at h
  · cases hc : checked (Atoi (trimSuffix raw "Ki")) with
    | error g =>
      rw [hc] at h
      simp only [Except.error.injEq] at h
      subst h
      exact checked_error _ g hc
    | ok v => rw [hc] at h; cases h
  · split at h
    · cases hc : checked (ParseFloat32 (trimSuffix raw "Gi")) with
      | error g =>
        rw [hc] at h
        simp only [Except.error.injEq] at h
        subst h
        exact checked_error _ g hc
      | ok v => rw [hc] at h; cases h
    · exact checked_error _ f h

/-- With an accumulator for `name`, a container is entered in the ledger or a
conversion error is returned; the lookups do not miss. -/
theorem usageContainer_safe (plat : Platform) (name : String) (m : Ledger) (c : Container)
    (hsome : (m name).isSome = true) :
    (∃ m1, usageContainer plat name m c = .ok m1 ∧ ∀ k, (m1 k).isSome = (m k).isSome) ∨
      ∃ f, usageContainer plat name m c = .error f ∧ f.IsGoError := by
  cases hcpu : fitCPU plat c.Resources.Requests.cpu with
  | error f =>
    right
    exact ⟨f, by unfold usageContainer; rw [hcpu], fitCPU_error plat _ f hcpu⟩
  | ok v =>
    cases hmem : usageMemory c.Resources.Requests.memory with
    | error f =>
      right
      obtain ⟨m', hm', -⟩ := addCPU_ok m name v hsome
      exact ⟨f, by unfold usageContainer; rw [hcpu]; simp only [hm', hmem],
        usageMemory_error _ f hmem⟩
    | ok o =>
      left
      exact usageContainer_ok plat name m c ⟨v, hcpu⟩ ⟨o, hmem⟩ hsome

theorem usageContainers_safe (plat : Platform) (name : String) (cs : List Container) (m : Ledger)
    (hsome : (m name).isSome = true) :
    (∃ m1, usageContainers plat name cs m = .ok m1 ∧ ∀ k, (m1 k).isSome = (m k).isSome) ∨
      ∃ f, usageContainers plat name cs m = .error f ∧ f.IsGoError := by
  induction cs generalizing m with
  | nil => exact Or.inl ⟨m, rfl, fun _ => rfl⟩
  | cons c cs ih =>
    rw [usageContainers]
    rcases usageContainer_safe plat name m c hsome with ⟨m1, h1, hd1⟩ | ⟨f, hf, hg⟩
    · rw [h1]
      rcases ih m1 (by rw [hd1]; exact hsome) with ⟨m2, h2, hd2⟩ | ⟨f, hf, hg⟩
      · exact Or.inl ⟨m2, h2, fun k => by rw [hd2, hd1]⟩
      · exact Or.inr ⟨f, hf, hg⟩
    · rw [hf]
      exact Or.inr ⟨f, rfl, hg⟩

theorem usagePods_safe (plat : Platform) (ps : List Pod) (m : Ledger)
    (h : ∀ p ∈ ps, p.Spec.NodeName ≠ "" → (m p.Spec.NodeName).isSome = true) :
    (∃ L, usagePods plat ps m = .ok L ∧ ∀ k, (L k).isSome = (m k).isSome) ∨
      ∃ f, usagePods plat ps m = .error f ∧ f.IsGoError := by
  induction ps generalizing m with
  | nil => exact Or.inl ⟨m, rfl, fun _ => rfl⟩
  | cons p ps ih =>
    rw [usagePods]
    by_cases hp : p.Spec.NodeName = ""
    · rw [if_pos hp]
      exact ih m (fun q hq => h q (List.mem_cons_of_mem _ hq))
    · rw [if_neg hp]
      rcases usageContainers_safe plat p.Spec.NodeName p.Spec.Containers m
        (h p (List.mem_cons_self _ _) hp) with ⟨m1, h1, hd1⟩ | ⟨f, hf, hg⟩
      · rw [h1]
        rcases ih m1 (fun q hq hne => by rw [hd1]; exact h q (List.mem_cons_of_mem _ hq) hne)
          with ⟨m2, h2, hd2⟩ | ⟨f, hf, hg⟩
        · exact Or.inl ⟨m2, h2, fun k => by rw [hd2, hd1]⟩
        · exact Or.inr ⟨f, hf, hg⟩
      · rw [hf]
        exact Or.inr ⟨f, rfl, hg⟩

theorem demandContainers_error (plat : Platform) (cs : List Container) (acc : Int × Int)
    (f : Fault) (h : demandContainers plat cs acc = .error f) : f.IsGoError := by
  induction cs generalizing acc with
  | nil => cases h
  | cons c cs ih =>
    rw [demandContainers] at h
    cases hc : demandContainer plat acc c with
    | error g =>
      rw [hc] at h
      simp only [Except.error.injEq] at h
      subst h
      unfold demandContainer at hc
      cases hcpu : fitCPU plat c.Resources.Requests.cpu with
      | error g' =>
        rw [hcpu] at hc
        simp only [Except.error.injEq] at hc
        subst hc
        exact fitCPU_error plat _ _ hcpu
      | ok v =>
        rw [hcpu] at hc
        simp only at hc
        cases hmem : demandMemory plat c.Resources.Requests.memory with
        | error g' =>
          rw [hmem] at hc
          simp only [Except.error.injEq] at hc
          subst hc
          exact demandMemory_error plat _ _ hmem
        | ok w => rw [hmem] at hc; cases hc
    | ok acc1 =>
      rw [hc] at h
      exact ih acc1 h

theorem demandPods_error (plat : Platform) (pods : List Pod) (acc : Int × Int)
    (f : Fault) (h : demandPods plat pods acc = .error f) : f.IsGoError := by
  induction pods generalizing acc with
  | nil => cases h
  | cons u us ih =>
    rw [demandPods] at h
    cases hc : demandContainers plat u.Spec.Containers acc with
    | error g =>
      rw [hc] at h
      simp only [Except.error.injEq] at h
      subst h
      exact demandContainers_error plat _ _ _ hc
    | ok acc1 =>
      rw [hc] at h
      exact ih acc1 h

theorem nodeCapacity_error (plat : Platform) (L : Ledger) (node : Node) (f : Fault)
    (hsome : (L node.Metadata.Name).isSome = true)
    (h : nodeCapacity plat L node = .error f) : f.IsGoError := by
  unfold nodeCapacity at h
  cases ha : nodeAllocatable plat node with
  | error g =>
    rw [ha] at h
    simp only [Except.error.injEq] at h
    subst h
    unfold nodeAllocatable at ha
    cases hcpu : fitCPU plat node.Status.Allocatable.cpu with
    | error g' =>
      rw [hcpu] at ha
      simp only [Except.error.injEq] at ha
      subst ha
      exact fitCPU_error plat _ _ hcpu
    | ok v =>
      rw [hcpu] at ha
      simp only at ha
      cases hmem : allocatableMemory plat node.Status.Allocatable.memory with
      | error g' =>
        rw [hmem] at ha
        simp only [Except.error.injEq] at ha
        subst ha
        exact allocatableMemory_error plat _ _ hmem
      | ok w => rw [hmem] at ha; cases ha
  | ok alloc =>
    rw [ha] at h
    cases hl : L node.Metadata.Name with
    | none => rw [hl] at hsome; cases hsome
    | some ru => simp only [hl] at h; cases h

theorem scanNodes_error (plat : Platform) (L : Ledger) (bindErr : Nat → Option String)
    (pods : List Pod) (dc dm : Int) (nodes : List Node) (ff : List String) (tr : List Effect)
    (f : Fault) (hsome : ∀ n ∈ nodes, (L n.Metadata.Name).isSome = true)
    (h : scanNodes plat L bindErr pods dc dm nodes ff tr = .error f) : f.IsGoError := by
  induction nodes generalizing ff tr with
  | nil => cases h
  | cons node rest ih =>
    unfold scanNodes at h
    cases hc : nodeCapacity plat L node with
    | error g =>
      rw [hc] at h
      simp only [Except.error.injEq] at h
      subst h
      exact nodeCapacity_error plat L node _ (hsome node (List.mem_cons_self _ _)) hc
    | ok c =>
      rw [hc] at h
      simp only at h
      by_cases hlt : c.freeSpace < dc ∨ c.freeMemory < dm
      · rw [if_pos hlt] at h
        exact ih _ _ (fun n hn => hsome n (List.mem_cons_of_mem _ hn)) h
      · rw [if_neg hlt] at h
        cases h

theorem Fault.IsGoError.ne_panic {f : Fault} (h : f.IsGoError) (msg : String) :
    f ≠ .panic msg := by
  obtain ⟨e, rfl⟩ := h
  intro h'
  cases h'

/-- C19. Ledger lookups are safe under the snapshot-consistency precondition:
if every pod of the snapshot with a non-empty `NodeName` names a node of the
node list, then the construction of the ledger does not end in a nil
dereference, the ledger it builds holds an accumulator for every node of the
list and for the node of every bound pod, and `fit` does not end in a nil
dereference (or any other panic). -/
theorem fit_lookups_safe (plat : Platform) (cl : Cluster) (pods : List Pod)
    (nodeList : List Node) (podList : List Pod)
    (hn : cl.getNodes = .ok nodeList) (hp : cl.getPods = .ok podList)
    (hc : ∀ p ∈ podList, p.Spec.NodeName ≠ "" →
      ∃ n ∈ nodeList, n.Metadata.Name = p.Spec.NodeName) :
    (∀ msg, fitLedger plat nodeList podList ≠ .error (.panic msg)) ∧
    (∀ L, fitLedger plat nodeList podList = .ok L →
      (∀ n ∈ nodeList, (L n.Metadata.Name).isSome = true) ∧
      ∀ p ∈ podList, p.Spec.NodeName ≠ "" → (L p.Spec.NodeName).isSome = true) ∧
    ∀ msg, fit plat cl pods ≠ .error (.panic msg) := by
  have hdom : ∀ p ∈ podList, p.Spec.NodeName ≠ "" →
      (newLedger nodeList Ledger.empty p.Spec.NodeName).isSome = true := by
    intro p hp' hne
    rw [newLedger_isSome]
    exact Or.inl (hc p hp' hne)
  have hsafe := usagePods_safe plat podList (newLedger nodeList Ledger.empty) hdom
  have hkeys : ∀ L, fitLedger plat nodeList podList = .ok L →
      (∀ n ∈ nodeList, (L n.Metadata.Name).isSome = true) ∧
      ∀ p ∈ podList, p.Spec.NodeName ≠ "" → (L p.Spec.NodeName).isSome = true := by
    intro L hL
    unfold fitLedger at hL
    rcases hsafe with ⟨L', hL', hd⟩ | ⟨f, hf, -⟩
    · rw [hL'] at hL
      simp only [Except.ok.injEq] at hL
      subst hL
      constructor
      · intro n hn'
        rw [hd, newLedger_isSome]
        exact Or.inl ⟨n, hn', rfl⟩
      · intro p hp' hne
        rw [hd]
        exact hdom p hp' hne
    · rw [hf] at hL
      cases hL
  have hledger : ∀ msg, fitLedger plat nodeList podList ≠ .error (.panic msg) := by
    intro msg hL
    unfold fitLedger at hL
    rcases hsafe with ⟨L', hL', -⟩ | ⟨f, hf, hg⟩
    · rw [hL'] at hL
      cases hL
    · rw [hf] at hL
      simp only [Except.error.injEq] at hL
      exact hg.ne_panic msg hL
  refine ⟨hledger, hkeys, ?_⟩
  intro msg hfit
  unfold fit at hfit
  rw [hn, hp] at hfit
  simp only at hfit
  cases hL : fitLedger plat nodeList podList with
  | error f =>
    rw [hL] at hfit
    simp only [Except.error.injEq] at hfit
    exact hledger msg (by rw [hL, hfit])
  | ok L =>
    rw [hL] at hfit
    simp only at hfit
    cases hd : fitDemand plat pods with
    | error f =>
      rw [hd] at hfit
      simp only [Except.error.injEq] at hfit
      exact (demandPods_error plat pods (0, 0) f hd).ne_panic msg hfit
    | ok d =>
      rw [hd] at hfit
      simp only at hfit
      cases hs : scanNodes plat L cl.bindErr pods d.1 d.2 nodeList [] [] with
      | error f =>
        rw [hs] at hfit
        simp only [Except.error.injEq] at hfit
        exact (scanNodes_error plat L cl.bindErr pods d.1 d.2 nodeList [] [] f
          (hkeys L hL).1 hs).ne_panic msg hfit
      | ok s =>
        rw [hs] at hfit
        simp only at hfit
        split at hfit <;> cases hfit

theorem fit_lookups_safe_witness :
    clusterOver.getNodes = .ok [node1] ∧ clusterOver.getPods = .ok [boundBig] ∧
    (∀ p ∈ [boundBig], p.Spec.NodeName ≠ "" →
      ∃ n ∈ [node1], n.Metadata.Name = p.Spec.NodeName) ∧
    ((∀ msg, fitLedger amd64 [node1] [boundBig] ≠ .error (.panic msg)) ∧
    (∀ L, fitLedger amd64 [node1] [boundBig] = .ok L →
      (∀ n ∈ [node1], (L n.Metadata.Name).isSome = true) ∧
      ∀ p ∈ [boundBig], p.Spec.NodeName ≠ "" → (L p.Spec.NodeName).isSome = true) ∧
    ∀ msg, fit amd64 clusterOver [unitA] ≠ .error (.panic msg)) :=
  ⟨rfl, rfl, by decide,
    fit_lookups_safe amd64 clusterOver [unitA] [node1] [boundBig] rfl rfl (by decide)⟩

/-! ### `bestPrice` and its argument -/

/-- The best node that the loop of `bestPrice` ends with does not depend on
the list `nodes` to which the loop appends. -/
theorem priceScan_acc (plat : Platform) (L : Ledger) (nodes acc acc' : List Node)
    (best : Option NodePrice) :
    (priceScan plat L nodes acc best).map Prod.snd =
      (priceScan plat L nodes acc' best).map Prod.snd := by
  induction nodes generalizing acc acc' best with
  | nil => rfl
  | cons node rest ih =>
    rw [priceScan, priceScan]
    cases priceFree plat L node with
    | error f => rfl
    | ok free =>
      simp only
      cases best with
      | none => exact ih _ _ _
      | some b => exact ih _ _ _

theorem priceScan_best_isSome (plat : Platform) (L : Ledger) (nodes acc : List Node)
    (best : Option NodePrice) (r : List Node × Option NodePrice)
    (hbest : best.isSome = true ∨ nodes ≠ [])
    (h : priceScan plat L nodes acc best = .ok r) : r.2.isSome = true := by
  induction nodes generalizing acc best with
  | nil =>
    simp only [priceScan, Except.ok.injEq] at h
    subst h
    rcases hbest with hb | hb
    · exact hb
    · exact absurd rfl hb
  | cons node rest ih =>
    rw [priceScan] at h
    cases hf : priceFree plat L node with
    | error f => rw [hf] at h; cases h
    | ok free =>
      rw [hf] at h
      simp only at h
      cases best with
      | none => exact ih _ _ (Or.inl (by simp)) h
      | some b => exact ih _ _ (Or.inl (by simp)) h

/-- With a non-empty fetched node list the outcome of `bestPrice`, a node or
a panic, is the same for every argument. -/
theorem bestPrice_argument_irrelevant (plat : Platform) (cl : Cluster) (nodeList : List Node)
    (hn : cl.getNodes = .ok nodeList) (hne : nodeList ≠ []) (nodes1 nodes2 : List Node) :
    bestPrice plat cl nodes1 = bestPrice plat cl nodes2 := by
  unfold bestPrice bestNodePrice
  rw [hn]
  cases hp : cl.getPods with
  | error e => rfl
  | ok podList =>
    simp only
    cases hL : priceLedger nodeList podList with
    | error f => rfl
    | ok L =>
      simp only
      have hacc := priceScan_acc plat L nodeList nodes1 nodes2 none
      cases h1 : priceScan plat L nodeList nodes1 none with
      | error f =>
        rw [h1] at hacc
        cases h2 : priceScan plat L nodeList nodes2 none with
        | error g =>
          rw [h2] at hacc
          simp only [Except.map, Except.error.injEq] at hacc
          subst hacc
          rfl
        | ok r2 => rw [h2] at hacc; cases hacc
      | ok r1 =>
        rw [h1] at hacc
        cases h2 : priceScan plat L nodeList nodes2 none with
        | error g => rw [h2] at hacc; cases hacc
        | ok r2 =>
          rw [h2] at hacc
          simp only [Except.map, Except.ok.injEq] at hacc
          have hs1 := priceScan_best_isSome plat L nodeList nodes1 none r1 (Or.inr hne) h1
          obtain ⟨a1, b1⟩ := r1
          obtain ⟨a2, b2⟩ := r2
          simp only at hacc hs1
          subst hacc
          cases b1 with
          | none => cases hs1
          | some b => cases a1 <;> cases a2 <;> rfl

/-- C20, as stated, fails: the fetched node list is `[node-1]` and a pod is
bound to a node that is not in it; for the arguments `[NodeA]` and `[NodeB]`
`bestPrice` returns no node, it dereferences a nil accumulator. -/
theorem bestPrice_stale_returns_no_node :
    bestPrice amd64 clusterStale [nodeA] = .error nilDeref ∧
      bestPrice amd64 clusterStale [nodeB] = .error nilDeref := by
  decide

/-- C20, amended. For every snapshot whose fetched node list is non-empty and
whose bound pods name nodes of that list there is a node `N` of the fetched
list that `bestPrice` returns for every argument: the result does not depend
on the argument. -/
theorem bestPrice_ignores_argument (plat : Platform) (cl : Cluster)
    (nodeList : List Node) (podList : List Pod)
    (hn : cl.getNodes = .ok nodeList) (hne : nodeList ≠ []) (hp : cl.getPods = .ok podList)
    (hc : ∀ p ∈ podList, p.Spec.NodeName ≠ "" →
      ∃ n ∈ nodeList, n.Metadata.Name = p.Spec.NodeName) :
    ∃ N, N ∈ nodeList ∧ ∀ nodes, bestPrice plat cl nodes = .ok N := by
  obtain ⟨L, hL, hdom⟩ := priceLedger_ok nodeList podList hc
  have hall : ∀ n ∈ nodeList, (L n.Metadata.Name).isSome = true :=
    fun n hn => (hdom _).mpr ⟨n, hn, rfl⟩
  cases nodeList with
  | nil => exact absurd rfl hne
  | cons node rest =>
    obtain ⟨pre, N, post, h1, h2, -, -⟩ := priceScan_none plat L node rest [] hall
    refine ⟨N, by rw [h1]; simp, fun nodes => ?_⟩
    rw [bestPrice_argument_irrelevant plat cl (node :: rest) hn hne nodes []]
    unfold bestPrice bestNodePrice
    simp only [hn, hp, hL, h2]

set_option maxRecDepth 100000 in
theorem bestPrice_ignores_argument_witness :
    clusterXY.getNodes = .ok [nodeX, nodeY] ∧ [nodeX, nodeY] ≠ [] ∧ clusterXY.getPods = .ok [] ∧
    (∀ p ∈ ([] : List Pod), p.Spec.NodeName ≠ "" →
      ∃ n ∈ [nodeX, nodeY], n.Metadata.Name = p.Spec.NodeName) ∧
    ∃ N, N ∈ [nodeX, nodeY] ∧ ∀ nodes, bestPrice amd64 clusterXY nodes = .ok N :=
  ⟨rfl, by decide, rfl, by decide,
    bestPrice_ignores_argument amd64 clusterXY [nodeX, nodeY] [] rfl (by decide) rfl (by decide)⟩

/-! ### Adding a bound pod to the snapshot -/

theorem nodeCapacity_congr (plat : Platform) (L L' : Ledger) (node : Node)
    (h : L node.Metadata.Name = L' node.Metadata.Name) :
    nodeCapacity plat L node = nodeCapacity plat L' node := by
  unfold nodeCapacity
  rw [h]

theorem fitFree_congr (plat : Platform) (nodeList : List Node) (ps ps' : List Pod) (L L' : Ledger)
    (node : Node) (hL : fitLedger plat nodeList ps = .ok L)
    (hL' : fitLedger plat nodeList ps' = .ok L')
    (h : L node.Metadata.Name = L' node.Metadata.Name) :
    fitFree plat nodeList ps node = fitFree plat nodeList ps' node := by
  unfold fitFree
  rw [hL, hL']
  simp only
  rw [nodeCapacity_congr plat L L' node h]

theorem fitFree_ok_ledger (plat : Platform) (nodeList : List Node) (ps : List Pod) (node : Node)
    (free : Int × Int) (h : fitFree plat nodeList ps node = .ok free) :
    ∃ L c, fitLedger plat nodeList ps = .ok L ∧ nodeCapacity plat L node = .ok c ∧
      free = (c.freeSpace, c.freeMemory) := by
  unfold fitFree at h
  cases hL : fitLedger plat nodeList ps with
  | error f => rw [hL] at h; cases h
  | ok L =>
    rw [hL] at h
    simp only at h
    cases hc : nodeCapacity plat L node with
    | error f => rw [hc] at h; cases h
    | ok c =>
      rw [hc] at h
      simp only [Except.ok.injEq] at h
      exact ⟨L, c, rfl, hc, h.symm⟩

theorem fitLedger_accepts (plat : Platform) (nodeList : List Node) (ps : List Pod) (L : Ledger)
    (h : fitLedger plat nodeList ps = .ok L) :
    Ledger.Accepts plat (newLedger nodeList Ledger.empty) ps := by
  unfold fitLedger at h
  exact (usagePods_adds plat ps _ L (newLedger_inRange nodeList) h).1

theorem fitLedger_of_accepts (plat : Platform) (nodeList : List Node) (ps : List Pod)
    (h : Ledger.Accepts plat (newLedger nodeList Ledger.empty) ps) :
    ∃ L, fitLedger plat nodeList ps = .ok L :=
  usagePods_ok plat ps _ h

/-- C15, as stated, fails: `fit` computes the free capacity (1000, 1024) of
`node-1`; after a pod bound to `NodeB` with the memory request `1.5Gi` is added
it computes none, `Atoi` refusing `1.5`; and after a pod bound to a node that
is not in the list is added it computes none either, the nil entry of the
ledger being dereferenced. -/
theorem fit_free_frame_needs_conversion :
    (node1.Metadata.Name ≠ boundFraction.Spec.NodeName ∧
      fitFree amd64 [node1, nodeB] [] node1 = .ok (1000, 1024) ∧
      fitFree amd64 [node1, nodeB] [boundFraction] node1 =
        .error (.error (.num ⟨"Atoi", "1.5", .invalid⟩))) ∧
    (node1.Metadata.Name ≠ boundStale.Spec.NodeName ∧
      fitFree amd64 [node1] [] node1 = .ok (1000, 1024) ∧
      fitFree amd64 [node1] [boundStale] node1 = .error nilDeref) := by
  decide

/-- C15, amended. Free-capacity frame: let a pod `p` be added anywhere to the
pod snapshot and let `N` be a node whose name is not the `NodeName` of `p`.
When `p` is not bound, or is bound to a node of the list and its requests
convert, whatever free CPU and free memory `fit` computes for `N` before the
addition it computes after it; and, with no condition on `p`, whatever it
computes for `N` after the addition it computes the same before. -/
theorem fit_free_frame (plat : Platform) (nodeList : List Node) (podList podList' : List Pod)
    (p : Pod) (N : Node) (hperm : (p :: podList).Perm podList')
    (hname : N.Metadata.Name ≠ p.Spec.NodeName) :
    (∀ free, fitFree plat nodeList podList' N = .ok free →
      fitFree plat nodeList podList N = .ok free) ∧
    ((p.Spec.NodeName = "" ∨
        ((∃ n ∈ nodeList, n.Metadata.Name = p.Spec.NodeName) ∧
          ∀ c ∈ p.Spec.Containers, (∃ v, fitCPU plat c.Resources.Requests.cpu = .ok v) ∧
            ∃ o, usageMemory c.Resources.Requests.memory = .ok o)) →
      ∀ free, fitFree plat nodeList podList N = .ok free →
        fitFree plat nodeList podList' N = .ok free) := by
  have hsame : ∀ L L', fitLedger plat nodeList podList = .ok L →
      fitLedger plat nodeList podList' = .ok L' →
      L N.Metadata.Name = L' N.Metadata.Name := by
    intro L L' hL hL'
    rw [fitLedger_sums plat nodeList podList L hL, fitLedger_sums plat nodeList podList' L' hL',
      ← usedCPU_perm plat _ hperm, ← usedMemory_perm _ hperm]
    have hne : ¬ (p.Spec.NodeName ≠ "" ∧ p.Spec.NodeName = N.Metadata.Name) :=
      fun h => hname h.2.symm
    simp [usedCPU, usedMemory, hne]
  constructor
  · intro free h
    obtain ⟨L', c, hL', -, -⟩ := fitFree_ok_ledger plat nodeList podList' N free h
    have hacc' := fitLedger_accepts plat nodeList podList' L' hL'
    have hacc : Ledger.Accepts plat (newLedger nodeList Ledger.empty) podList :=
      fun q hq => hacc' q (hperm.mem_iff.mp (List.mem_cons_of_mem _ hq))
    obtain ⟨L, hL⟩ := fitLedger_of_accepts plat nodeList podList hacc
    rw [fitFree_congr plat nodeList podList podList' L L' N hL hL' (hsame L L' hL hL')]
    exact h
  · intro hp free h
    obtain ⟨L, c, hL, -, -⟩ := fitFree_ok_ledger plat nodeList podList N free h
    have hacc := fitLedger_accepts plat nodeList podList L hL
    have hacc' : Ledger.Accepts plat (newLedger nodeList Ledger.empty) podList' := by
      intro q hq hne cq hcq
      rcases List.mem_cons.mp (hperm.mem_iff.mpr hq) with rfl | hq'
      · rcases hp with h0 | ⟨hnode, hconv⟩
        · exact absurd h0 hne
        · obtain ⟨a, b⟩ := hconv cq hcq
          exact ⟨a, b, by rw [newLedger_isSome]; exact Or.inl hnode⟩
      · exact hacc q hq' hne cq hcq
    obtain ⟨L', hL'⟩ := fitLedger_of_accepts plat nodeList podList' hacc'
    rw [← fitFree_congr plat nodeList podList podList' L L' N hL hL' (hsame L L' hL hL')]
    exact h

theorem fit_free_frame_witness :
    ((boundB :: [boundBig]).Perm [boundBig, boundB] ∧
      node1.Metadata.Name ≠ boundB.Spec.NodeName) ∧
    ((∀ free, fitFree amd64 [node1, nodeB] [boundBig, boundB] node1 = .ok free →
      fitFree amd64 [node1, nodeB] [boundBig] node1 = .ok free) ∧
    ((boundB.Spec.NodeName = "" ∨
        ((∃ n ∈ [node1, nodeB], n.Metadata.Name = boundB.Spec.NodeName) ∧
          ∀ c ∈ boundB.Spec.Containers,
            (∃ v, fitCPU amd64 c.Resources.Requests.cpu = .ok v) ∧
            ∃ o, usageMemory c.Resources.Requests.memory = .ok o)) →
      ∀ free, fitFree amd64 [node1, nodeB] [boundBig] node1 = .ok free →
        fitFree amd64 [node1, nodeB] [boundBig, boundB] node1 = .ok free)) ∧
    ((∃ n ∈ [node1, nodeB], n.Metadata.Name = boundB.Spec.NodeName) ∧
      boundB.Spec.Containers.map
          (fun c => (fitCPU amd64 c.Resources.Requests.cpu,
            usageMemory c.Resources.Requests.memory)) =
        [(.ok 250, .ok (some 512)), (.ok 500, .ok (some 1000))]) ∧
    fitFree amd64 [node1, nodeB] [boundBig] node1 = .ok (-1000, 1024) ∧
    fitFree amd64 [node1, nodeB] [boundBig, boundB] node1 = .ok (-1000, 1024) ∧
    fitFree amd64 [node1, nodeB] [boundBig] nodeB = .ok (1000, 2048) ∧
    fitFree amd64 [node1, nodeB] [boundBig, boundB] nodeB = .ok (250, 536) :=
  ⟨⟨List.Perm.swap _ _ _, by decide⟩,
    fit_free_frame amd64 [node1, nodeB] [boundBig] [boundBig, boundB] boundB node1
      (List.Perm.swap _ _ _) (by decide),
    by decide, by decide, by decide, by decide, by decide⟩

theorem memoryOf_eq (c : Container) (o : Option Int)
    (h : usageMemory c.Resources.Requests.memory = .ok o) : memoryOf c = o.getD 0 := by
  unfold memoryOf
  rw [h]
  cases o <;> rfl

set_option maxRecDepth 100000 in
/-- Monotonicity on a snapshot: adding the pod `on-b`, which asks
for 750m CPU and 1512 memory units in all, takes the free capacity of `NodeB`
from (1000, 2048) to (250, 536). -/
theorem fit_free_monotone_example :
    fitFree amd64 [node1, nodeB] [boundBig] nodeB = .ok (1000, 2048) ∧
      fitFree amd64 [node1, nodeB] [boundBig, boundB] nodeB = .ok (250, 536) := by
  decide

/-! ### Integers through `strconv`: `Atoi` and the `float32` of `ParseFloat` -/

theorem bitLenAux_bounds (fuel n : Nat) (h : n ≤ fuel) (hn : 0 < n) :
    2 ^ (bitLenAux fuel n - 1) ≤ n ∧ n < 2 ^ (bitLenAux fuel n) ∧ 1 ≤ bitLenAux fuel n := by
  induction fuel generalizing n with
  | zero => omega
  | succ f ih =>
    have hn0 : n ≠ 0 := by omega
    rw [bitLenAux, if_neg hn0]
    by_cases h2 : n / 2 = 0
    · have h1 : n = 1 := by omega
      subst h1
      cases f with
      | zero => simp [bitLenAux]
      | succ f' => simp [bitLenAux]
    · obtain ⟨a, b, c⟩ := ih (n / 2) (by omega) (by omega)
      refine ⟨?_, ?_, by omega⟩
      · have e : bitLenAux f (n / 2) + 1 - 1 = (bitLenAux f (n / 2) - 1) + 1 := by omega
        rw [e, Nat.pow_succ]
        omega
      · rw [Nat.pow_succ]
        omega

theorem bitLen_bounds (n : Nat) (hn : 0 < n) :
    2 ^ (bitLen n - 1) ≤ n ∧ n < 2 ^ (bitLen n) ∧ 1 ≤ bitLen n :=
  bitLenAux_bounds n n (le_refl _) hn

theorem bitLen_le_24 (n : Nat) (hn : 0 < n) (h : n < 2 ^ 24) : bitLen n ≤ 24 := by
  obtain ⟨a, -, c⟩ := bitLen_bounds n hn
  by_contra hcon
  have : 24 ≤ bitLen n - 1 := by omega
  have := Nat.pow_le_pow_right (show 2 > 0 by decide) this
  omega


theorem scaled_neg (n d j : Nat) : scaled n d (-(j : Int)) = (n * 2 ^ j, d) := by
  unfold scaled
  by_cases hj : j = 0
  · subst hj
    simp
  · have : ¬ (0 : Int) ≤ -(j : Int) := by omega
    rw [if_neg this]
    simp

theorem roundHalfEven_one (N : Nat) : roundHalfEven N 1 = N := by
  simp [roundHalfEven, Nat.mod_one]

theorem roundFloat24_exact (n : Nat) (hn : 0 < n) (h : n < 2 ^ 24) :
    ∃ j : Nat, j ≤ 23 ∧ roundFloat 24 (-149) n 1 = (n * 2 ^ j, -(j : Int)) := by
  obtain ⟨lo, hi, one⟩ := bitLen_bounds n hn
  have le := bitLen_le_24 n hn h
  have hb1 : bitLen 1 = 1 := by decide
  have hn0 : ¬ n = 0 := by omega
  obtain ⟨j, hj⟩ : ∃ j, j = 24 - bitLen n := ⟨_, rfl⟩
  have hmax : max ((bitLen n : Int) - (bitLen 1 : Int) - ((24 : Nat) : Int)) (-149)
      = -((j + 1 : Nat) : Int) := by
    rw [hb1]
    omega
  have hpow : 2 ^ 24 ≤ n * 2 ^ (j + 1) := by
    have e : 2 ^ 24 = 2 ^ (bitLen n - 1) * 2 ^ (j + 1) := by
      rw [← Nat.pow_add]
      congr 1
      omega
    rw [e]
    exact Nat.mul_le_mul_right _ lo
  refine ⟨j, by omega, ?_⟩
  unfold roundFloat
  rw [if_neg hn0]
  simp only [hmax, scaled_neg]
  have hge : n * 2 ^ (j + 1) / 1 ≥ 2 ^ 24 := by simpa using hpow
  rw [if_pos hge]
  have he : (-((j + 1 : Nat) : Int) + 1) = -(j : Int) := by push_cast; omega
  rw [he, scaled_neg, roundHalfEven_one]

theorem isDigit_ne (c d : Char) (h : isDigit c = true) (hd : isDigit d = false) : c ≠ d := by
  rintro rfl
  rw [h] at hd
  cases hd

theorem isDigit_beq (c d : Char) (h : isDigit c = true) (hd : isDigit d = false) :
    (c == d) = false := by
  simpa using isDigit_ne c d h hd

theorem scanDigits_digits (ds : List Char) (st : Scan) (h : ∀ c ∈ ds, isDigit c = true)
    (hdot : st.sawdot = false) (hnd : st.nd = 0 → st.mantissa = 0) :
    ∃ nd dp, scanDigits false ds st =
      (⟨ds.foldl (fun acc c => 10 * acc + digitVal c) st.mantissa, nd, dp, false,
        st.sawdigits || !ds.isEmpty, st.underscores⟩, []) := by
  induction ds generalizing st with
  | nil =>
    refine ⟨st.nd, st.dp, ?_⟩
    cases st
    simp only at hdot
    subst hdot
    simp [scanDigits]
  | cons c cs ih =>
    have hc := h c (List.mem_cons_self _ _)
    have hcs : ∀ c' ∈ cs, isDigit c' = true := fun c' hc' => h c' (List.mem_cons_of_mem _ hc')
    have h1 : (c == '_') = false := isDigit_beq c '_' hc (by decide)
    have h2 : (c == '.') = false := isDigit_beq c '.' hc (by decide)
    rw [scanDigits]
    simp only [h1, h2, hc, Bool.false_eq_true, if_false, if_true]
    by_cases hz : (c == '0' && st.nd == 0) = true
    · rw [if_pos hz]
      simp only [Bool.and_eq_true, beq_iff_eq] at hz
      obtain ⟨hc0, hn0⟩ := hz
      obtain ⟨nd, dp, hr⟩ := ih ⟨st.mantissa, st.nd, st.dp - 1, st.sawdot, true, st.underscores⟩
        hcs hdot hnd
      refine ⟨nd, dp, ?_⟩
      rw [hr]
      have hm := hnd hn0
      subst hc0
      simp [hm, digitVal]
    · rw [if_neg hz]
      obtain ⟨nd, dp, hr⟩ := ih ⟨st.mantissa * 10 + digitVal c, st.nd + 1, st.dp, st.sawdot, true,
        st.underscores⟩ hcs hdot (by simp)
      refine ⟨nd, dp, ?_⟩
      rw [hr]
      simp [Nat.mul_comm]

theorem readFloat_digits (ds : List Char) (h : IsDigits ds) :
    readFloat ds = some ⟨false, digitsNat ds, 0, false⟩ := by
  obtain ⟨hne, hall⟩ := h
  cases ds with
  | nil => exact absurd rfl hne
  | cons c cs =>
    have hc := hall c (List.mem_cons_self _ _)
    have h1 : (c == '-') = false := isDigit_beq c '-' hc (by decide)
    have h2 : (c == '+') = false := isDigit_beq c '+' hc (by decide)
    have hhex : (match c :: cs with
        | '0' :: x :: _ :: _ => x == 'x' || x == 'X'
        | _ => false) = false := by
      split
      · rename_i x _ _ heq
        have hx : isDigit x = true := hall x (by rw [heq]; simp)
        simp [isDigit_beq x 'x' hx (by decide), isDigit_beq x 'X' hx (by decide)]
      · rfl
    obtain ⟨nd, dp, hr⟩ := scanDigits_digits (c :: cs) ⟨0, 0, 0, false, false, false⟩ hall rfl
      (fun _ => rfl)
    unfold readFloat
    simp only [h1, h2, Bool.or_self, Bool.false_eq_true, if_false, hhex, hr]
    simp [digitsNat]

theorem lowerASCII_digit (c : Char) (h : isDigit c = true) : lowerASCII c = c := by
  unfold lowerASCII
  have : ¬ ('A'.toNat ≤ c.toNat ∧ c.toNat ≤ 'Z'.toNat) := by
    simp only [isDigit, Bool.and_eq_true, decide_eq_true_eq] at h
    have h9 : '9'.toNat = 57 := by decide
    have hA : 'A'.toNat = 65 := by decide
    omega
  rw [if_neg this]

theorem special_digits (ds : List Char) (h : IsDigits ds) : special ds = none := by
  obtain ⟨hne, hall⟩ := h
  cases ds with
  | nil => exact absurd rfl hne
  | cons c cs =>
    have hc := hall c (List.mem_cons_self _ _)
    have h1 : (c == '-') = false := isDigit_beq c '-' hc (by decide)
    have h2 : (c == '+') = false := isDigit_beq c '+' hc (by decide)
    have hi : c ≠ 'i' := isDigit_ne c 'i' hc (by decide)
    have hn : c ≠ 'n' := isDigit_ne c 'n' hc (by decide)
    unfold special
    simp [h1, h2, lowerASCII_digit c hc, hi, hn]

theorem floatToInt_exact (plat : Platform) (n j : Nat) (h : n ≤ 2 ^ 24) :
    floatToInt plat (mul1000 (.finite false (n * 2 ^ j) (-(j : Int)))) = 1000 * (n : Int) := by
  have hpos : 0 < 2 ^ j := Nat.pow_pos (by decide)
  have ht : (if (0 : Int) ≤ -(j : Int) then n * 2 ^ j * 1000 * 2 ^ (-(j : Int)).toNat
      else n * 2 ^ j * 1000 / 2 ^ (-(-(j : Int))).toNat) = n * 1000 := by
    by_cases hj : j = 0
    · subst hj
      simp
    · have : ¬ (0 : Int) ≤ -(j : Int) := by omega
      rw [if_neg this]
      simp only [neg_neg, Int.toNat_ofNat]
      rw [Nat.mul_right_comm, Nat.mul_div_cancel _ hpos]
  unfold mul1000 floatToInt
  simp only [ht, Bool.false_eq_true, if_false]
  have hr : minInt64 ≤ ((n * 1000 : Nat) : Int) ∧ ((n * 1000 : Nat) : Int) ≤ maxInt64 := by
    unfold minInt64 maxInt64
    have : (2 : Nat) ^ 24 = 16777216 := by norm_num
    constructor <;> push_cast <;> omega
  rw [if_pos hr]
  push_cast
  ring

set_option maxRecDepth 100000 in
theorem roundFloat24_small (plat : Platform) (n : Nat) (h : n ≤ 2 ^ 24) :
    ¬ (0 ≤ (roundFloat 24 (-149) n 1).2 ∧
        (roundFloat 24 (-149) n 1).1 * 2 ^ (roundFloat 24 (-149) n 1).2.toNat ≥ 2 ^ 128) ∧
    floatToInt plat (mul1000 (.finite false (roundFloat 24 (-149) n 1).1
      (roundFloat 24 (-149) n 1).2)) = 1000 * (n : Int) := by
  by_cases h0 : n = 0
  · subst h0
    exact ⟨by decide, rfl⟩
  · by_cases h24 : n = 2 ^ 24
    · subst h24
      exact ⟨by decide, rfl⟩
    · have hlt : n < 2 ^ 24 := by omega
      obtain ⟨j, hj, hr⟩ := roundFloat24_exact n (by omega) hlt
      rw [hr]
      refine ⟨?_, floatToInt_exact plat n j h⟩
      simp only
      rintro ⟨hj0, hbig⟩
      have hj' : j = 0 := by omega
      subst hj'
      simp only [Nat.cast_zero, neg_zero, Int.toNat_zero, pow_zero, mul_one] at hbig
      have : (2 : Nat) ^ 24 < 2 ^ 128 := by norm_num
      omega

theorem ParseFloat32_digits (plat : Platform) (ds : List Char) (h : IsDigits ds)
    (hle : digitsNat ds ≤ 2 ^ 24) :
    ∃ f, ParseFloat32 ⟨ds⟩ = (f, none) ∧ floatToInt plat (mul1000 f) = 1000 * (digitsNat ds : Int) := by
  obtain ⟨hbig, hval⟩ := roundFloat24_small plat (digitsNat ds) hle
  unfold ParseFloat32
  simp only [special_digits ds h, readFloat_digits ds h, Bool.false_eq_true, if_false,
    le_refl, if_true, Int.toNat_zero, pow_zero, mul_one]
  rw [if_neg hbig]
  exact ⟨_, rfl, hval⟩

theorem foldl_digits_le (ds : List Char) (acc : Nat) :
    acc ≤ ds.foldl (fun a c => 10 * a + digitVal c) acc := by
  induction ds generalizing acc with
  | nil => exact le_refl _
  | cons c cs ih =>
    have := ih (10 * acc + digitVal c)
    simp only [List.foldl_cons]
    omega

/-- The digit loop on digits only: the number they denote when it fits
`uint64`, the range error otherwise. -/
theorem parseUintLoop_digits (ds : List Char) (acc : Nat) (h : ∀ c ∈ ds, isDigit c = true)
    (hacc : acc ≤ 2 ^ 64 - 1) :
    parseUintLoop ds acc =
      if ds.foldl (fun a c => 10 * a + digitVal c) acc ≤ 2 ^ 64 - 1 then
        (ds.foldl (fun a c => 10 * a + digitVal c) acc, none)
      else (2 ^ 64 - 1, some .outOfRange) := by
  induction ds generalizing acc with
  | nil => rw [parseUintLoop, List.foldl_nil, if_pos hacc]
  | cons c cs ih =>
    have hmono := foldl_digits_le cs (10 * acc + digitVal c)
    rw [parseUintLoop, if_pos (h c (List.mem_cons_self _ _))]
    simp only [List.foldl_cons]
    by_cases h1 : acc ≥ (2 ^ 64 - 1) / 10 + 1
    · rw [if_pos h1, if_neg]
      have : (2 ^ 64 - 1) / 10 + 1 = 1844674407370955162 := by norm_num
      rw [this] at h1
      have h2 : (2 : Nat) ^ 64 - 1 = 18446744073709551615 := by norm_num
      rw [h2]
      omega
    · rw [if_neg h1]
      by_cases h2 : acc * 10 + digitVal c > 2 ^ 64 - 1
      · simp only [h2, if_true]
        rw [if_neg]
        omega
      · simp only [h2, if_false]
        rw [ih (acc * 10 + digitVal c) (fun c' hc' => h c' (List.mem_cons_of_mem _ hc'))
          (by omega), Nat.mul_comm acc 10]

/-- `Atoi` on a string of digits: the number the digits denote, and an error
exactly when that number is not an `int`. -/
theorem Atoi_digits (ds : List Char) (h : IsDigits ds) :
    ((Atoi ⟨ds⟩).2 = none ↔ digitsNat ds < 2 ^ 63) ∧
      ((Atoi ⟨ds⟩).2 = none → (Atoi ⟨ds⟩).1 = (digitsNat ds : Int)) := by
  obtain ⟨hne, hall⟩ := h
  cases ds with
  | nil => exact absurd rfl hne
  | cons c cs =>
    have hc := hall c (List.mem_cons_self _ _)
    have h1 : (c == '-') = false := isDigit_beq c '-' hc (by decide)
    have h2 : (c == '+') = false := isDigit_beq c '+' hc (by decide)
    have hfold : List.foldl (fun a c => 10 * a + digitVal c) 0 (c :: cs) = digitsNat (c :: cs) :=
      rfl
    have hloop := parseUintLoop_digits (c :: cs) 0 hall (by norm_num)
    rw [hfold] at hloop
    unfold Atoi
    simp only [h1, h2, Bool.or_self, Bool.false_eq_true, if_false]
    by_cases hfit : digitsNat (c :: cs) ≤ 2 ^ 64 - 1
    · rw [if_pos hfit] at hloop
      simp only [hloop]
      by_cases hv : digitsNat (c :: cs) ≥ 2 ^ 63
      · rw [if_pos hv]
        exact ⟨⟨fun h => by simp at h, fun h => by omega⟩, fun h => by simp at h⟩
      · rw [if_neg hv]
        exact ⟨⟨fun _ => by omega, fun _ => rfl⟩, fun _ => rfl⟩
    · rw [if_neg hfit] at hloop
      simp only [hloop]
      have hbig : ¬ digitsNat (c :: cs) < 2 ^ 63 := by
        have : (2 : Nat) ^ 63 ≤ 2 ^ 64 - 1 := by norm_num
        omega
      rw [if_pos (by norm_num)]
      exact ⟨⟨fun h => by simp at h, fun h => absurd h hbig⟩, fun h => by simp at h⟩

/-- A digit run that leaves `uint64` is a range error at the digit where it
does so, whatever follows; a run that stays inside `uint64` and is followed
by another character is a syntax error with the value 0. -/
theorem Atoi_overflow_before_letter :
    Atoi "99999999999999999999x" = (maxInt64, some ⟨"Atoi", "99999999999999999999x", .outOfRange⟩) ∧
    Atoi "-99999999999999999999x" = (minInt64, some ⟨"Atoi", "-99999999999999999999x", .outOfRange⟩) ∧
    Atoi "99999999999999999999" = (maxInt64, some ⟨"Atoi", "99999999999999999999", .outOfRange⟩) ∧
    Atoi "9223372036854775808x" = (0, some ⟨"Atoi", "9223372036854775808x", .invalid⟩) ∧
    Atoi "18446744073709551615x" = (0, some ⟨"Atoi", "18446744073709551615x", .invalid⟩) ∧
    Atoi "18446744073709551616x" = (maxInt64, some ⟨"Atoi", "18446744073709551616x", .outOfRange⟩) ∧
    Atoi "9223372036854775807" = (9223372036854775807, none) ∧
    Atoi "-9223372036854775808" = (-9223372036854775808, none) ∧
    Atoi "9223372036854775808" = (maxInt64, some ⟨"Atoi", "9223372036854775808", .outOfRange⟩) ∧
    Atoi "12x" = (0, some ⟨"Atoi", "12x", .invalid⟩) ∧
    Atoi "+" = (0, some ⟨"Atoi", "+", .invalid⟩) ∧
    Atoi "" = (0, some ⟨"Atoi", "", .invalid⟩) := by
  decide

theorem hasSuffix_append (ds : List Char) (suffix : String) :
    hasSuffix ⟨ds ++ suffix.data⟩ suffix = true := by
  unfold hasSuffix
  rw [List.isSuffixOf_iff_suffix]
  exact List.suffix_append _ _

theorem trimSuffix_append (ds : List Char) (suffix : String) :
    trimSuffix ⟨ds ++ suffix.data⟩ suffix = ⟨ds⟩ := by
  unfold trimSuffix
  rw [if_pos (hasSuffix_append ds suffix)]
  simp

theorem hasSuffix_Ki_Gi (ds : List Char) : hasSuffix ⟨ds ++ "Gi".data⟩ "Ki" = false := by
  simp [hasSuffix, List.isSuffixOf, List.isPrefixOf]

theorem hasSuffix_Ki_Mi (ds : List Char) : hasSuffix ⟨ds ++ "Mi".data⟩ "Ki" = false := by
  simp [hasSuffix, List.isSuffixOf, List.isPrefixOf]

/-- The allocatable memory `g` `Gi` of a node, for `g` up to 2^24, is 1000 g. -/
theorem allocatableMemory_Gi (plat : Platform) (gs : List Char) (h : IsDigits gs)
    (hle : digitsNat gs ≤ 2 ^ 24) :
    allocatableMemory plat ⟨gs ++ "Gi".data⟩ = .ok (1000 * (digitsNat gs : Int)) := by
  obtain ⟨f, hf, hv⟩ := ParseFloat32_digits plat gs h hle
  unfold allocatableMemory
  rw [hasSuffix_Ki_Gi]
  simp only [Bool.false_eq_true, if_false]
  rw [if_pos (hasSuffix_append gs "Gi"), trimSuffix_append, hf]
  simp only [checked]
  rw [hv]

/-- The memory request `m` `Mi` of a bound container, when the ledger takes
it, counts `m`. -/
theorem usageMemory_Mi (ms : List Char) (h : IsDigits ms) (o : Option Int)
    (ho : usageMemory ⟨ms ++ "Mi".data⟩ = .ok o) : o = some (digitsNat ms : Int) := by
  obtain ⟨hiff, hval⟩ := Atoi_digits ms h
  unfold usageMemory at ho
  rw [if_pos (hasSuffix_append ms "Mi"), trimSuffix_append] at ho
  unfold checked at ho
  cases herr : (Atoi ⟨ms⟩).2 with
  | some e => rw [herr] at ho; cases ho
  | none =>
    rw [herr] at ho
    simp only [Except.ok.injEq] at ho
    rw [← ho, hval herr]

/-! ### Scenario C: allocatable memory in `Gi`, requests in `Mi` -/

theorem quantityNat_append (ms : List Char) (a b : Char) :
    quantityNat ⟨ms ++ [a, b]⟩ = digitsNat ms := by
  unfold quantityNat
  simp

theorem containersMi_nonneg (cs : List Container) : 0 ≤ containersMi cs := by
  induction cs with
  | nil => simp [containersMi]
  | cons c cs ih =>
    simp only [containersMi]
    omega

theorem boundMi_nonneg (name : String) (ps : List Pod) : 0 ≤ boundMi name ps := by
  induction ps with
  | nil => simp [boundMi]
  | cons p ps ih =>
    simp only [boundMi]
    have := containersMi_nonneg p.Spec.Containers
    split <;> omega

theorem containersMemory_Mi (cs : List Container)
    (hok : ∀ c ∈ cs, ∃ o, usageMemory c.Resources.Requests.memory = .ok o)
    (hMi : ∀ c ∈ cs, ∃ ms, IsDigits ms ∧ c.Resources.Requests.memory = ⟨ms ++ "Mi".data⟩) :
    containersMemory cs = containersMi cs := by
  induction cs with
  | nil => rfl
  | cons c cs ih =>
    obtain ⟨o, ho⟩ := hok c (List.mem_cons_self _ _)
    obtain ⟨ms, hms, hraw⟩ := hMi c (List.mem_cons_self _ _)
    have ho' := ho
    rw [hraw] at ho'
    have hval := usageMemory_Mi ms hms o ho'
    have hq : quantityNat c.Resources.Requests.memory = digitsNat ms := by
      rw [hraw]
      exact quantityNat_append ms 'M' 'i'
    simp only [containersMemory, containersMi]
    rw [memoryOf_eq c o ho, hval, hq,
      ih (fun c' hc' => hok c' (List.mem_cons_of_mem _ hc'))
        (fun c' hc' => hMi c' (List.mem_cons_of_mem _ hc'))]
    rfl

theorem usedMemory_Mi (plat : Platform) (m : Ledger) (name : String) (ps : List Pod)
    (hacc : Ledger.Accepts plat m ps)
    (hMi : ∀ p ∈ ps, p.Spec.NodeName ≠ "" → p.Spec.NodeName = name →
      ∀ c ∈ p.Spec.Containers, ∃ ms, IsDigits ms ∧
        c.Resources.Requests.memory = ⟨ms ++ "Mi".data⟩) :
    usedMemory name ps = boundMi name ps := by
  induction ps with
  | nil => rfl
  | cons p ps ih =>
    have ih' := ih (fun q hq => hacc q (List.mem_cons_of_mem _ hq))
      (fun q hq => hMi q (List.mem_cons_of_mem _ hq))
    simp only [usedMemory, boundMi]
    rw [ih']
    by_cases hb : p.Spec.NodeName ≠ "" ∧ p.Spec.NodeName = name
    · rw [if_pos hb, if_pos hb]
      rw [containersMemory_Mi p.Spec.Containers
        (fun c hc => (hacc p (List.mem_cons_self _ _) hb.1 c hc).2.1)
        (hMi p (List.mem_cons_self _ _) hb.1 hb.2)]
    · rw [if_neg hb, if_neg hb]

theorem subInt_small (a s : Int) (ha0 : 0 ≤ a) (ha : a ≤ 1000 * 2 ^ 24) (hs0 : 0 ≤ s)
    (hs : s ≤ maxInt64) : subInt a (wrap64 s) = a - s := by
  unfold maxInt64 at hs
  unfold subInt wrap64
  omega

set_option maxRecDepth 100000 in
/-- Scenario C of the specification: allocatable memory `2Gi` and one bound
container requesting `512Mi` leave the free memory 1488. -/
theorem scenarioC_free_memory :
    fitFree amd64 [nodeC] [boundC] nodeC = .ok (900, 1488) := by
  decide

set_option maxRecDepth 100000 in
/-- C17, as stated, fails: for the allocatable memory `16777217Gi` `fit`
computes the free memory 16777216000, not 1000 * 16777217; and for `2Gi` with
two bound containers requesting `9223372036854775807Mi` each it computes 2002,
the sum of the requests having wrapped round to -2. -/
theorem free_memory_not_1000g :
    (fitFree amd64 [nodeG] [] nodeG = .ok (1000, 16777216000) ∧
      (16777216000 : Int) ≠ 1000 * 16777217 - 0) ∧
    (fitFree amd64 [nodeC] [boundHuge] nodeC = .ok (800, 2002) ∧
      (2002 : Int) ≠ 1000 * 2 - (9223372036854775807 + 9223372036854775807)) := by
  decide

/-- C17, amended. Gi/Mi free-memory scaling: let `X` be a node of the list whose
allocatable memory is the string `g` `Gi` with `g` at most 2^24 = 16777216 and
whose allocatable CPU converts, let the ledger of `fit` be built from the
snapshot, and let every container of every pod bound to `X` request a memory
string `m_i` `Mi`, the `m_i` adding up to at most the greatest `int`. Then `fit`
computes the free memory of `X` as 1000 * g minus the sum of the `m_i`. -/
theorem fit_free_memory_Gi_Mi (plat : Platform) (nodeList : List Node) (podList : List Pod)
    (X : Node) (gs : List Char) (hX : X ∈ nodeList) (hgs : IsDigits gs)
    (hmem : X.Status.Allocatable.memory = ⟨gs ++ "Gi".data⟩)
    (hg : digitsNat gs ≤ 2 ^ 24)
    (hcpu : ∃ v, fitCPU plat X.Status.Allocatable.cpu = .ok v)
    (hledger : (fitLedger plat nodeList podList).isOk = true)
    (hMi : ∀ p ∈ podList, p.Spec.NodeName ≠ "" → p.Spec.NodeName = X.Metadata.Name →
      ∀ c ∈ p.Spec.Containers, ∃ ms, IsDigits ms ∧
        c.Resources.Requests.memory = ⟨ms ++ "Mi".data⟩)
    (hsum : boundMi X.Metadata.Name podList ≤ maxInt64) :
    ∃ free, fitFree plat nodeList podList X = .ok free ∧
      free.2 = 1000 * (digitsNat gs : Int) - boundMi X.Metadata.Name podList := by
  cases hL : fitLedger plat nodeList podList with
  | error f => rw [hL] at hledger; cases hledger
  | ok L =>
    obtain ⟨v, hv⟩ := hcpu
    have hacc := fitLedger_accepts plat nodeList podList L hL
    have hused := usedMemory_Mi plat _ X.Metadata.Name podList hacc hMi
    have hentry := fitLedger_sums plat nodeList podList L hL X.Metadata.Name
    rw [if_pos ⟨X, hX, rfl⟩, hused] at hentry
    have hfree : fitFree plat nodeList podList X =
        .ok (subInt v (wrap64 (usedCPU plat X.Metadata.Name podList)),
          subInt (1000 * (digitsNat gs : Int)) (wrap64 (boundMi X.Metadata.Name podList))) := by
      unfold fitFree
      rw [hL]
      simp only
      unfold nodeCapacity nodeAllocatable
      rw [hv]
      simp only
      rw [hmem, allocatableMemory_Gi plat gs hgs hg]
      simp only
      rw [hentry]
    refine ⟨_, hfree, ?_⟩
    simp only
    have h24 : (2 : Nat) ^ 24 = 16777216 := by norm_num
    exact subInt_small _ _ (by omega) (by omega) (boundMi_nonneg _ _) hsum

set_option maxRecDepth 100000 in
theorem fit_free_memory_Gi_Mi_witness :
    nodeC ∈ [nodeC] ∧ IsDigits ['2'] ∧
    nodeC.Status.Allocatable.memory = ⟨['2'] ++ "Gi".data⟩ ∧
    digitsNat ['2'] ≤ 2 ^ 24 ∧
    (∃ v, fitCPU amd64 nodeC.Status.Allocatable.cpu = .ok v) ∧
    (fitLedger amd64 [nodeC] [boundC]).isOk = true ∧
    (∀ p ∈ [boundC], p.Spec.NodeName ≠ "" → p.Spec.NodeName = nodeC.Metadata.Name →
      ∀ c ∈ p.Spec.Containers, ∃ ms, IsDigits ms ∧
        c.Resources.Requests.memory = ⟨ms ++ "Mi".data⟩) ∧
    boundMi nodeC.Metadata.Name [boundC] ≤ maxInt64 ∧
    ∃ free, fitFree amd64 [nodeC] [boundC] nodeC = .ok free ∧
      free.2 = 1000 * (digitsNat ['2'] : Int) - boundMi nodeC.Metadata.Name [boundC] :=
  have hMi : ∀ p ∈ [boundC], p.Spec.NodeName ≠ "" → p.Spec.NodeName = nodeC.Metadata.Name →
      ∀ c ∈ p.Spec.Containers, ∃ ms, IsDigits ms ∧
        c.Resources.Requests.memory = ⟨ms ++ "Mi".data⟩ := by
    intro p hp _ _ c hc
    simp only [List.mem_singleton] at hp
    subst hp
    simp only [boundC, mkPod, List.mem_singleton] at hc
    subst hc
    exact ⟨['5', '1', '2'], ⟨by decide, by decide⟩, rfl⟩
  ⟨by decide, ⟨by decide, by decide⟩, rfl, by decide, ⟨1000, by decide⟩, by decide, hMi, by decide,
    fit_free_memory_Gi_Mi amd64 [nodeC] [boundC] nodeC ['2'] (by decide) ⟨by decide, by decide⟩ rfl
      (by decide) ⟨1000, by decide⟩ (by decide) hMi (by decide)⟩

/-! ### The CPU rule on integers -/

theorem hasSuffix_m_digits (ds : List Char) (h : IsDigits ds) : hasSuffix ⟨ds⟩ "m" = false := by
  obtain ⟨hne, hall⟩ := h
  have hlast := hall (ds.getLast hne) (List.getLast_mem hne)
  have hm : ds.getLast hne ≠ 'm' := isDigit_ne _ 'm' hlast (by decide)
  cases hs : hasSuffix ⟨ds⟩ "m" with
  | false => rfl
  | true =>
    exfalso
    unfold hasSuffix at hs
    rw [List.isSuffixOf_iff_suffix] at hs
    obtain ⟨t, ht⟩ := hs
    apply hm
    have h2 : ds = t ++ ['m'] := ht.symm
    simp [h2]

/-- The CPU rule on millicores: a string of digits followed by `m`, when it
converts, gives the number the digits denote. -/
theorem fitCPU_millicores (plat : Platform) (ds : List Char) (h : IsDigits ds) (v : Int)
    (hv : fitCPU plat ⟨ds ++ "m".data⟩ = .ok v) : v = (digitsNat ds : Int) := by
  obtain ⟨-, hval⟩ := Atoi_digits ds h
  unfold fitCPU at hv
  rw [if_pos (hasSuffix_append ds "m"), trimSuffix_append] at hv
  unfold checked at hv
  cases herr : (Atoi ⟨ds⟩).2 with
  | some e => rw [herr] at hv; cases hv
  | none =>
    rw [herr] at hv
    simp only [Except.ok.injEq] at hv
    rw [← hv, hval herr]

/-- The CPU rule on whole cores: a string of digits denoting at most 2^24
cores gives 1000 times that number. -/
theorem fitCPU_cores (plat : Platform) (ds : List Char) (h : IsDigits ds)
    (hle : digitsNat ds ≤ 2 ^ 24) : fitCPU plat ⟨ds⟩ = .ok (1000 * (digitsNat ds : Int)) := by
  obtain ⟨f, hf, hval⟩ := ParseFloat32_digits plat ds h hle
  unfold fitCPU
  rw [hasSuffix_m_digits ds h]
  simp only [Bool.false_eq_true, if_false, hf, checked]
  rw [hval]

theorem bitLen_le_53 (n : Nat) (hn : 0 < n) (h : n < 2 ^ 53) : bitLen n ≤ 53 := by
  obtain ⟨a, -, c⟩ := bitLen_bounds n hn
  by_contra hcon
  have : 53 ≤ bitLen n - 1 := by omega
  have := Nat.pow_le_pow_right (show 2 > 0 by decide) this
  omega

theorem roundFloat53_exact (n : Nat) (hn : 0 < n) (h : n < 2 ^ 53) :
    ∃ j : Nat, j ≤ 52 ∧ roundFloat 53 (-1074) n 1 = (n * 2 ^ j, -(j : Int)) := by
  obtain ⟨lo, hi, one⟩ := bitLen_bounds n hn
  have le := bitLen_le_53 n hn h
  have hb1 : bitLen 1 = 1 := by decide
  have hn0 : ¬ n = 0 := by omega
  obtain ⟨j, hj⟩ : ∃ j, j = 53 - bitLen n := ⟨_, rfl⟩
  have hmax : max ((bitLen n : Int) - (bitLen 1 : Int) - ((53 : Nat) : Int)) (-1074)
      = -((j + 1 : Nat) : Int) := by
    rw [hb1]
    omega
  have hpow : 2 ^ 53 ≤ n * 2 ^ (j + 1) := by
    have e : 2 ^ 53 = 2 ^ (bitLen n - 1) * 2 ^ (j + 1) := by
      rw [← Nat.pow_add]
      congr 1
      omega
    rw [e]
    exact Nat.mul_le_mul_right _ lo
  refine ⟨j, by omega, ?_⟩
  unfold roundFloat
  rw [if_neg hn0]
  simp only [hmax, scaled_neg]
  have hge : n * 2 ^ (j + 1) / 1 ≥ 2 ^ 53 := by simpa using hpow
  rw [if_pos hge]
  have he : (-((j + 1 : Nat) : Int) + 1) = -(j : Int) := by push_cast; omega
  rw [he, scaled_neg, roundHalfEven_one]

/-- An `int` of magnitude below `2^53` is converted to `float64` exactly. -/
theorem intToFloat64_exact (i : Int) (h1 : -(2 ^ 53) < i) (h2 : i < 2 ^ 53) :
    intToFloat64 i = i := by
  unfold intToFloat64
  by_cases h0 : i = 0
  · subst h0
    decide
  · have hpos : 0 < i.natAbs := Int.natAbs_pos.mpr h0
    have hlt : i.natAbs < 2 ^ 53 := by omega
    obtain ⟨j, -, hr⟩ := roundFloat53_exact i.natAbs hpos hlt
    simp only [hr]
    have hv : (if (0 : Int) ≤ -(j : Int) then i.natAbs * 2 ^ j * 2 ^ (-(j : Int)).toNat
        else i.natAbs * 2 ^ j / 2 ^ (- -(j : Int)).toNat) = i.natAbs := by
      by_cases hj : j = 0
      · subst hj
        simp
      · have : ¬ (0 : Int) ≤ -(j : Int) := by omega
        rw [if_neg this]
        simp
    rw [hv]
    by_cases hneg : i < 0
    · rw [if_pos hneg]; omega
    · rw [if_neg hneg]; omega

/-- Division by 2 truncated toward zero, in terms of the floor division. -/
theorem tdiv_two (x : Int) :
    (0 ≤ x → Int.tdiv x 2 = x / 2) ∧ (x < 0 → Int.tdiv x 2 = -((-x) / 2)) := by
  constructor
  · intro h
    exact Int.tdiv_eq_ediv h (by decide)
  · intro h
    have : x = -(-x) := by omega
    rw [this, Int.neg_tdiv, Int.tdiv_eq_ediv (by omega) (by decide)]
    simp

/-- The score of line 115 on free capacities whose sum has magnitude below
`2^54`: exactly half the sum, truncated toward zero. -/
theorem price_exact (free : Int × Int) (h1 : -(2 ^ 54) < free.1 + free.2)
    (h2 : free.1 + free.2 < 2 ^ 54) : price free = Int.tdiv (free.1 + free.2) 2 := by
  have hs : addInt free.1 free.2 = free.1 + free.2 :=
    wrap64_of_inRange _ (by unfold minInt64; omega) (by unfold maxInt64; omega)
  obtain ⟨hpos, hneg⟩ := tdiv_two (free.1 + free.2)
  have hq1 : -(2 ^ 53) < Int.tdiv (free.1 + free.2) 2 := by
    by_cases h0 : 0 ≤ free.1 + free.2
    · rw [hpos h0]; omega
    · rw [hneg (by omega)]; omega
  have hq2 : Int.tdiv (free.1 + free.2) 2 < 2 ^ 53 := by
    by_cases h0 : 0 ≤ free.1 + free.2
    · rw [hpos h0]; omega
    · rw [hneg (by omega)]; omega
  have hq : quoInt (free.1 + free.2) 2 = Int.tdiv (free.1 + free.2) 2 :=
    wrap64_of_inRange _ (by unfold minInt64; omega) (by unfold maxInt64; omega)
  unfold price
  rw [hs, hq]
  exact intToFloat64_exact _ hq1 hq2

set_option maxRecDepth 100000 in
/-- The value that `Atoi` returns with a range error is used by `bestPrice`:
the node whose CPU quantity is `99999999999999999999xm` has the free CPU
`2^63 - 1` and the score `2^62`, and is returned before `n-good`. -/
theorem bestPrice_uses_range_error_value :
    bestPrice amd64 clusterRange [] = .ok nodeRange ∧
    bestPriceFree amd64 [nodeGood, nodeRange] [] nodeGood = .ok (4000, 8192) ∧
    bestPriceFree amd64 [nodeGood, nodeRange] [] nodeRange = .ok (9223372036854775807, 0) ∧
    price (4000, 8192) = 6096 ∧
    price (9223372036854775807, 0) = 4611686018427387904 := by
  decide

/-- C7, amended. Best-fit selection: for every non-empty fetched node list and
every pod snapshot whose bound pods name nodes of that list, `bestPrice`
returns the first node in list order whose score is greatest, the score of a
node being half the sum of its free CPU and free memory by the integer
division of Go, converted to `float64`; when the sum has magnitude below
`2^54` the score is exactly that half, truncated toward zero. No node has a
strictly greater score than the node returned and every node earlier in the
list has a strictly smaller one. -/
theorem bestPrice_first_greatest_score (plat : Platform) (cl : Cluster) (nodes : List Node)
    (nodeList : List Node) (podList : List Pod)
    (hn : cl.getNodes = .ok nodeList) (hne : nodeList ≠ []) (hp : cl.getPods = .ok podList)
    (hc : ∀ p ∈ podList, p.Spec.NodeName ≠ "" →
      ∃ n ∈ nodeList, n.Metadata.Name = p.Spec.NodeName) :
    ∃ L pre N post, priceLedger nodeList podList = .ok L ∧ nodeList = pre ++ N :: post ∧
      bestPrice plat cl nodes = .ok N ∧
      (∀ n ∈ nodeList, ∃ free, priceFree plat L n = .ok free ∧
        nodePrice plat L n = intToFloat64 (quoInt (addInt free.1 free.2) 2) ∧
        (-(2 ^ 54) < free.1 + free.2 → free.1 + free.2 < 2 ^ 54 →
          nodePrice plat L n = Int.tdiv (free.1 + free.2) 2)) ∧
      (∀ n ∈ nodeList, nodePrice plat L n ≤ nodePrice plat L N) ∧
      (∀ n ∈ pre, nodePrice plat L n < nodePrice plat L N) := by
  obtain ⟨L, hL, hdom⟩ := priceLedger_ok nodeList podList hc
  have hall : ∀ n ∈ nodeList, (L n.Metadata.Name).isSome = true :=
    fun n hn => (hdom _).mpr ⟨n, hn, rfl⟩
  cases nodeList with
  | nil => exact absurd rfl hne
  | cons node rest =>
    obtain ⟨pre, N, post, h1, h2, h3, h4⟩ := priceScan_none plat L node rest nodes hall
    refine ⟨L, pre, N, post, hL, h1, ?_, fun n hn => ?_, h3, h4⟩
    · unfold bestPrice bestNodePrice
      simp only [hn, hp, hL, h2]
    · obtain ⟨free, hf, hpr⟩ := priceFree_ok plat L n (hall n hn)
      exact ⟨free, hf, hpr, fun hlo hhi => hpr.trans (price_exact free hlo hhi)⟩

set_option maxRecDepth 100000 in
theorem bestPrice_first_greatest_score_witness :
    (clusterThree.getNodes = .ok [nodeB, nodeA, nodeA2] ∧ [nodeB, nodeA, nodeA2] ≠ [] ∧
      clusterThree.getPods = .ok [boundB] ∧
      (∀ p ∈ [boundB], p.Spec.NodeName ≠ "" →
        ∃ n ∈ [nodeB, nodeA, nodeA2], n.Metadata.Name = p.Spec.NodeName)) ∧
    (∃ L pre N post, priceLedger [nodeB, nodeA, nodeA2] [boundB] = .ok L ∧
      [nodeB, nodeA, nodeA2] = pre ++ N :: post ∧
      bestPrice amd64 clusterThree [] = .ok N ∧
      (∀ n ∈ [nodeB, nodeA, nodeA2], ∃ free, priceFree amd64 L n = .ok free ∧
        nodePrice amd64 L n = intToFloat64 (quoInt (addInt free.1 free.2) 2) ∧
        (-(2 ^ 54) < free.1 + free.2 → free.1 + free.2 < 2 ^ 54 →
          nodePrice amd64 L n = Int.tdiv (free.1 + free.2) 2)) ∧
      (∀ n ∈ [nodeB, nodeA, nodeA2], nodePrice amd64 L n ≤ nodePrice amd64 L N) ∧
      (∀ n ∈ pre, nodePrice amd64 L n < nodePrice amd64 L N)) ∧
    bestPrice amd64 clusterThree [] = .ok nodeA ∧
    (priceLedger [nodeB, nodeA, nodeA2] [boundB]).map
        (fun L => [nodeB, nodeA, nodeA2].map
          (fun n => (priceFree amd64 L n, nodePrice amd64 L n))) =
      .ok [(.ok (750, 2046464), 1023607), (.ok (2000, 4096000), 2049000),
        (.ok (2000, 4096000), 2049000)] :=
  ⟨⟨rfl, by decide, rfl, by decide⟩,
    bestPrice_first_greatest_score amd64 clusterThree [] [nodeB, nodeA, nodeA2] [boundB] rfl
      (by decide) rfl (by decide),
    by decide, by decide⟩

end DDLP
